import Mathlib

/-!
Verification of the cultural-nodes epistemic retrieval core.

Shallow embedding of the Python sources:
  app/ingestion/curator.py        (CuratorialGate)
  app/core/knowledge_store.py     (KnowledgeStore)
  app/core/metadata.py            (CulturalMetadata, MetadataEnricher)
  app/core/cultural_retriever.py  (CulturalRetriever)
  app/ingestion/discourse_chunker.py (DiscourseAwareChunker)

Modelling conventions:
  - Python strings are Lean `String`s (sequences of unicode scalar values);
    Python's lone-surrogate code units are not representable and are ignored.
  - Python floats are modelled as rationals `ℚ`; the retrieval claims are
    order-theoretic and do not depend on binary rounding.
  - File paths are modelled at the level of `pathlib.Path.parts`, i.e. as
    lists of path segments.
  - SQLite tables are modelled as Lean lists of rows in insertion order.
  - A Python `dict` metadata record is modelled as an association list with
    first-occurrence lookup.
-/

/-- Generic substring search: `containsSub pat s` is true iff `pat` occurs as a
contiguous infix of `s`.  Models `re.search` for the plain (unanchored, no
metacharacter) patterns of the repository, and Python's `in` on strings. -/
def containsSub (pat : List Char) : List Char → Bool
  | [] => pat.isEmpty
  | c :: rest => pat.isPrefixOf (c :: rest) || containsSub pat rest

/-- Substring test on `String`s. -/
def strContains (s pat : String) : Bool := containsSub pat.data s.data

namespace Curator

/-- `AuthorityLevel` enum of app/ingestion/curator.py. -/
inductive AuthorityLevel
  | situated
  | academic
  | institutional
  | media
  | archival
  deriving DecidableEq, Repr

/-- `EpistemicOrigin` enum of app/ingestion/curator.py. -/
inductive EpistemicOrigin
  | local_knowledge
  | community_archive
  | academic_research
  | institutional_record
  | media_discourse
  | historical_archive
  deriving DecidableEq, Repr

/-- `CuratorialGate.SOURCE_TYPE_MAP`: folder name to (authority, origin). -/
def SOURCE_TYPE_MAP (s : String) : Option (AuthorityLevel × EpistemicOrigin) :=
  if s = "community" then some (.situated, .community_archive)
  else if s = "academic" then some (.academic, .academic_research)
  else if s = "media" then some (.media, .media_discourse)
  else if s = "archival" then some (.archival, .historical_archive)
  else none

/-- String form of a path, as `str(path)` on a relative path: segments joined
by the path separator. -/
def pathStr (parts : List String) : String :=
  String.intercalate "/" parts

/-- The legacy fallback at the end of `CuratorialGate.extract_source_type`:
both the pdf/text/markdown branch and the final return yield "general". -/
def legacyFallback (parts : List String) : String :=
  if strContains (pathStr parts) "pdf" || strContains (pathStr parts) "text"
      || strContains (pathStr parts) "markdown" then
    "general"
  else
    "general"

/-- `CuratorialGate.extract_source_type`, at the granularity of
`pathlib.Path.parts`: `root` is `knowledge_base_root`, `parts` the file path.
`Path.relative_to` succeeds exactly when `root` is a prefix of `parts`, and
yields the remaining segments. -/
def extract_source_type (root parts : List String) : String :=
  if root.isPrefixOf parts then
    match (parts.drop root.length).head? with
    | some first_folder =>
        if (SOURCE_TYPE_MAP first_folder).isSome then first_folder
        else legacyFallback parts
    | none => legacyFallback parts
  else legacyFallback parts

/-- `CuratorialGate.determine_authority_level`. -/
def determine_authority_level (source_type : String) : AuthorityLevel :=
  match SOURCE_TYPE_MAP source_type with
  | some p => p.1
  | none => AuthorityLevel.situated

/-- `CuratorialGate.determine_epistemic_origin`. -/
def determine_epistemic_origin (source_type : String) : EpistemicOrigin :=
  match SOURCE_TYPE_MAP source_type with
  | some p => p.2
  | none => EpistemicOrigin.local_knowledge

end Curator

namespace KStore

/-- A row of the `documents` table together with its joined theme names
(`document_themes`/`themes`); `themes` models the set of theme rows linked to
the document, in insertion order.  Only the columns used by the claims are
carried. -/
structure DocRow where
  id : Nat
  vector_id : String
  source_type : String
  authority_level : String
  epistemic_origin : String
  language : String
  themes : List String
  deriving DecidableEq, Repr

/-- A row of the `relations` table. -/
structure RelRow where
  from_doc_id : Nat
  to_doc_id : Nat
  relation_type : String
  created_at : String
  deriving DecidableEq, Repr

/-- The knowledge store state: `documents` (with joined themes) and
`relations`, each in insertion order. -/
structure Store where
  documents : List DocRow
  relations : List RelRow
  deriving DecidableEq, Repr

/-- `SELECT id FROM documents WHERE vector_id = ?` followed by `fetchone`. -/
def lookupDocId (st : Store) (vid : String) : Option Nat :=
  ((st.documents.filter (fun d => d.vector_id = vid)).head?).map (·.id)

/-- `KnowledgeStore.add_relation` (the spec's `link`): resolves both vector
ids; on failure returns false with the store unchanged, otherwise inserts a
relation row.  `now` is the `datetime.utcnow().isoformat()` timestamp, passed
explicitly. -/
def add_relation (st : Store) (now from_vector_id to_vector_id relation_type : String) :
    Bool × Store :=
  match lookupDocId st from_vector_id, lookupDocId st to_vector_id with
  | some fromId, some toId =>
      (true, { st with relations := st.relations ++ [⟨fromId, toId, relation_type, now⟩] })
  | _, _ => (false, st)

/-- Python truthiness of an optional string argument: `None` and `""` are
falsy, so `if source_type:` activates the WHERE clause only for a non-empty
string. -/
def activeFilter (o : Option String) : Option String :=
  match o with
  | some s => if s = "" then none else some s
  | none => none

/-- The `where_clauses` and `params` lists `KnowledgeStore.query_by_filters`
accumulates, in source order (`source_type`, `authority_level`,
`epistemic_origin`, `language`): each active filter appends one equality
clause (represented by the document column it compares) to `where_clauses`
and its value to `params`; a falsy (`None` or empty-string) argument appends
neither. -/
def whereClausesParams (source_type authority_level epistemic_origin language : Option String) :
    List (DocRow → String) × List String :=
  ((match activeFilter source_type with
    | some _ => [fun d : DocRow => d.source_type]
    | none => [])
   ++ (match activeFilter authority_level with
    | some _ => [fun d : DocRow => d.authority_level]
    | none => [])
   ++ (match activeFilter epistemic_origin with
    | some _ => [fun d : DocRow => d.epistemic_origin]
    | none => [])
   ++ (match activeFilter language with
    | some _ => [fun d : DocRow => d.language]
    | none => []),
   (match activeFilter source_type with
    | some v => [v]
    | none => [])
   ++ (match activeFilter authority_level with
    | some v => [v]
    | none => [])
   ++ (match activeFilter epistemic_origin with
    | some v => [v]
    | none => [])
   ++ (match activeFilter language with
    | some v => [v]
    | none => []))

/-- `COUNT(DISTINCT t.id)` over the join rows of a document restricted to the
requested theme names: the number of distinct themes of `d` that occur in
`themes` (theme names are unique in the `themes` table, so distinct ids
correspond to distinct names). -/
def themeMatchCount (d : DocRow) (themes : List String) : Nat :=
  ((d.themes.filter (fun t => themes.contains t)).dedup).length

/-- `KnowledgeStore.query_by_filters`.  With a non-empty theme list the code
builds SQL whose placeholders occur in the order [theme IN-list, equality
clauses, count, limit], but appends the values to `params` in the order
[equality filters, themes, count, limit] (`params.extend(themes)` runs after
the filter appends).  sqlite3 qmark parameters bind positionally, so the
IN-list receives the first `len(themes)` entries of
`filter values ++ themes`, and equality clause `i` receives the entry at
offset `len(themes) + i`; the placeholder and parameter counts always agree,
so the last two placeholders receive `len(themes)` and `limit` and no
binding error is raised.  A grouped document is kept when its distinct
matched-theme count over the bound IN-list equals the bound count.  Without
themes the placeholder order is [equality clauses, limit], matching `params`,
so each clause receives its own value.  Rows are returned in table order and
cut by LIMIT. -/
def query_by_filters (st : Store)
    (source_type authority_level epistemic_origin : Option String)
    (themes : List String) (language : Option String) (limit : Nat) : List String :=
  let cp := whereClausesParams source_type authority_level epistemic_origin language
  if themes.isEmpty then
    (((st.documents.filter
        (fun d => (cp.1.zip cp.2).all (fun cv => cv.1 d == cv.2))).map
      (·.vector_id)).take limit)
  else
    let strVals := cp.2 ++ themes
    let inList := strVals.take themes.length
    let eqVals := strVals.drop themes.length
    (((st.documents.filter
        (fun d => themeMatchCount d inList == themes.length
          && (cp.1.zip eqVals).all (fun cv => cv.1 d == cv.2))).map
      (·.vector_id)).take limit)

end KStore

namespace Retriever

/-- A similarity-search candidate's metadata, as read through
`doc.metadata.get(...)`: absent keys yield `none`. -/
structure RDoc where
  docId : String
  epistemic_origin : Option String
  source_type : Option String
  authority_level : Option String
  deriving DecidableEq, Repr

/-- `CulturalRetriever.AUTHORITY_WEIGHTS.get(authority, 1.0)`. -/
def authorityWeight (a : String) : ℚ :=
  if a = "situated" then 6/5
  else if a = "academic" then 1
  else if a = "media" then 9/10
  else if a = "institutional" then 4/5
  else if a = "archival" then 11/10
  else 1

/-- The adjusted score of one candidate in
`CulturalRetriever.retrieve_authority_ranked`: the authority level defaults to
"academic" when absent, its weight multiplies the similarity, with an extra
13/10 on "situated" when community boosting is on. -/
def finalScore (boost_community : Bool) (d : RDoc) (sim_score : ℚ) : ℚ :=
  let authority := d.authority_level.getD "academic"
  let weight := authorityWeight authority
  let weight := if boost_community && authority == "situated" then weight * (13/10) else weight
  sim_score * weight

/-- Stable descending insertion: places `x` before the first element whose key
is less than or equal to `key x`, so earlier elements win ties.  Models the
stability guarantee of Python's `list.sort(key=..., reverse=True)`. -/
def insertDesc (key : α → ℚ) (x : α) : List α → List α
  | [] => [x]
  | y :: ys => if key y ≤ key x then x :: y :: ys else y :: insertDesc key x ys

/-- Stable sort, descending by `key`; extensionally equal to Python's stable
`sort(key=..., reverse=True)`. -/
def sortDescBy (key : α → ℚ) : List α → List α
  | [] => []
  | x :: xs => insertDesc key x (sortDescBy key xs)

/-- The re-ranked candidate list of `CulturalRetriever.retrieve_authority_ranked`
before truncation: each `(doc, sim_score)` is mapped to `(doc, final_score)`
and the list is sorted descending by the adjusted score. -/
def authorityRankedScored (boost_community : Bool) (cands : List (RDoc × ℚ)) :
    List (RDoc × ℚ) :=
  sortDescBy (·.2) (cands.map (fun c => (c.1, finalScore boost_community c.1 c.2)))

/-- `CulturalRetriever.retrieve_authority_ranked`, as a function of the
candidate list returned by `similarity_search_with_score(query, k=k*2)`. -/
def retrieve_authority_ranked (boost_community : Bool) (k : Nat)
    (cands : List (RDoc × ℚ)) : List RDoc :=
  ((authorityRankedScored boost_community cands).take k).map (·.1)

/-- The conjunctive metadata filter of `CulturalRetriever.retrieve_epistemic`;
an argument that is `None` or `""` is falsy in Python and deactivates its
clause, and a missing metadata key (`none`) never equals an active filter. -/
def epistemicPass (d : RDoc) (epistemic_origin source_type authority_level : Option String) :
    Bool :=
  (match KStore.activeFilter epistemic_origin with
   | some v => d.epistemic_origin == some v
   | none => true) &&
  (match KStore.activeFilter source_type with
   | some v => d.source_type == some v
   | none => true) &&
  (match KStore.activeFilter authority_level with
   | some v => d.authority_level == some v
   | none => true)

/-- The accumulation loop of `CulturalRetriever.retrieve_epistemic`: walk the
candidates in similarity order, keep those passing the filter, and break as
soon as the kept list has reached size `k`. -/
def epistemicLoop (eo st al : Option String) (k : Nat) :
    List (RDoc × ℚ) → List (RDoc × ℚ) → List (RDoc × ℚ)
  | [], acc => acc
  | c :: cs, acc =>
      if epistemicPass c.1 eo st al then
        if k ≤ (acc ++ [c]).length then acc ++ [c]
        else epistemicLoop eo st al k cs (acc ++ [c])
      else epistemicLoop eo st al k cs acc

/-- `CulturalRetriever.retrieve_epistemic`, as a function of the candidate
list returned by `similarity_search_with_score(query, k=k*3)`. -/
def retrieve_epistemic (cands : List (RDoc × ℚ))
    (epistemic_origin source_type authority_level : Option String) (k : Nat) : List RDoc :=
  (epistemicLoop epistemic_origin source_type authority_level k cands []).map (·.1)

end Retriever

namespace Chunker

/-- `ChunkRole` literal alternatives of app/ingestion/discourse_chunker.py. -/
inductive ChunkRole
  | argument
  | counter_argument
  | definition
  | example
  | narrative
  | question
  | unknown
  deriving DecidableEq, Repr

/-- `DiscoursePosition` literal alternatives of discourse_chunker.py. -/
inductive DiscoursePosition
  | supportive
  | critical
  | neutral
  | questioning
  deriving DecidableEq, Repr

/-- `\w` word characters for the `\b` boundaries of the narrative-marker
patterns, modelled over ASCII (letters, digits, underscore). -/
def isWordChar (c : Char) : Bool :=
  c.isAlphanum || c = '_'

/-- A position boundary is acceptable when there is no adjacent word
character (start/end of string, or a non-word neighbour). -/
def boundaryOk (c : Option Char) : Bool :=
  match c with
  | some c => !isWordChar c
  | none => true

/-- Search for `w` with `\b` on both sides: scans every position of the text,
checking the preceding character and the character following the match.
Models `re.search(r'\bw\b', s)` for a literal word `w`. -/
def wbSearchAux (w : List Char) (prev : Option Char) : List Char → Bool
  | [] => false
  | c :: rest =>
      (boundaryOk prev && w.isPrefixOf (c :: rest)
        && boundaryOk ((c :: rest).drop w.length).head?)
      || wbSearchAux w (some c) rest

/-- Whole-word containment of `w` in `s` (`re.search` with `\b...\b`). -/
def wbContains (s w : String) : Bool :=
  wbSearchAux w.data none s.data

/-- `DiscourseAwareChunker.ARGUMENT_PATTERNS` (plain substring patterns). -/
def ARGUMENT_PATTERNS : List String :=
  ["oleh karena itu", "maka", "dengan demikian", "therefore", "thus", "consequently"]

/-- `DiscourseAwareChunker.COUNTER_PATTERNS` (plain substring patterns). -/
def COUNTER_PATTERNS : List String :=
  ["namun", "tetapi", "akan tetapi", "sebaliknya",
   "however", "but", "nevertheless", "on the contrary"]

/-- `DiscourseAwareChunker.DEFINITION_PATTERNS` (plain substring patterns). -/
def DEFINITION_PATTERNS : List String :=
  ["adalah", "merupakan", "didefinisikan", "is defined as", "refers to", "means"]

/-- `DiscourseAwareChunker.EXAMPLE_PATTERNS` (plain substring patterns). -/
def EXAMPLE_PATTERNS : List String :=
  ["misalnya", "contohnya", "sebagai contoh", "for example", "for instance", "such as"]

/-- `DiscourseAwareChunker.QUESTION_PATTERNS`; the regex `\?` is the literal
question mark. -/
def QUESTION_PATTERNS : List String :=
  ["bagaimana", "mengapa", "apa", "siapa", "kapan", "dimana",
   "how", "why", "what", "who", "when", "where", "?"]

/-- The narrative markers of `classify_chunk_role`, matched as whole words
(each source pattern is wrapped in `\b`). -/
def NARRATIVE_MARKERS : List String :=
  ["telah", "pernah", "dahulu", "history"]

/-- `str.lower()`, characterwise (modelled over the ASCII range, which covers
every cue pattern of the chunker). -/
def pyLower (s : String) : String :=
  ⟨s.data.map Char.toLower⟩

/-- `any(re.search(pattern, text_lower) for pattern in pats)` for plain
substring patterns. -/
def anySub (pats : List String) (t : String) : Bool :=
  pats.any (fun p => strContains t p)

/-- `any(re.search(pattern, text_lower) ...)` for the word-bounded narrative
markers. -/
def anyWb (pats : List String) (t : String) : Bool :=
  pats.any (fun p => wbContains t p)

/-- `DiscourseAwareChunker.classify_chunk_role`: a priority-ordered first
match over the lowercased text. -/
def classify_chunk_role (chunk_text : String) : ChunkRole :=
  let text_lower := pyLower chunk_text
  if anySub QUESTION_PATTERNS text_lower then ChunkRole.question
  else if anySub DEFINITION_PATTERNS text_lower then ChunkRole.definition
  else if anySub EXAMPLE_PATTERNS text_lower then ChunkRole.example
  else if anySub COUNTER_PATTERNS text_lower then ChunkRole.counter_argument
  else if anySub ARGUMENT_PATTERNS text_lower then ChunkRole.argument
  else if anyWb NARRATIVE_MARKERS text_lower then ChunkRole.narrative
  else ChunkRole.unknown

/-- The critical-stance lexicon of `detect_discourse_position` (plain
substring patterns). -/
def critical_markers : List String :=
  ["masalah", "kritik", "problem", "issue", "concern", "tidak", "bukan", "not", "never"]

/-- The supportive-stance lexicon of `detect_discourse_position` (plain
substring patterns). -/
def supportive_markers : List String :=
  ["mendukung", "setuju", "positif", "support", "agree", "baik", "good", "beneficial"]

/-- `sum(1 for pattern in markers if re.search(pattern, text_lower))`. -/
def markerCount (markers : List String) (t : String) : Nat :=
  (markers.filter (fun p => strContains t p)).length

/-- `DiscourseAwareChunker.detect_discourse_position`. -/
def detect_discourse_position (chunk_text : String) (chunk_role : ChunkRole) :
    DiscoursePosition :=
  let text_lower := pyLower chunk_text
  if chunk_role = ChunkRole.counter_argument then DiscoursePosition.critical
  else if chunk_role = ChunkRole.question then DiscoursePosition.questioning
  else
    let critical_count := markerCount critical_markers text_lower
    let supportive_count := markerCount supportive_markers text_lower
    if supportive_count < critical_count then DiscoursePosition.critical
    else if critical_count < supportive_count then DiscoursePosition.supportive
    else DiscoursePosition.neutral

/-- Whitespace for Python's `str.strip()` (modelled over the ASCII whitespace
characters). -/
def isPySpace (c : Char) : Bool :=
  c = ' ' || c = '\t' || c = '\n' || c = '\r' || c = '\x0b' || c = '\x0c'

/-- `str.strip()` on the character list: drop whitespace from both ends. -/
def stripL (l : List Char) : List Char :=
  ((l.dropWhile isPySpace).reverse.dropWhile isPySpace).reverse

/-- `str.strip()`. -/
def pyStrip (s : String) : String :=
  ⟨stripL s.data⟩

/-- `text.split('\n\n')` at the character level: split on each
non-overlapping, leftmost occurrence of the two-character separator; `cur`
accumulates the current piece in reverse. -/
def splitParas : List Char → List Char → List (List Char)
  | [], cur => [cur.reverse]
  | '\n' :: '\n' :: rest, cur => cur.reverse :: splitParas rest []
  | c :: rest, cur => splitParas rest (c :: cur)

/-- `text.split('\n\n')`. -/
def pySplitParas (text : String) : List String :=
  (splitParas text.data []).map (fun l => (⟨l⟩ : String))

/-- Joining a list of strings with the paragraph separator, as
`'\n\n'.join(...)`; also how `semantic_split` accumulates a chunk. -/
def joinSep : List String → String
  | [] => ""
  | [x] => x
  | x :: xs => x ++ "\n\n" ++ joinSep xs

/-- A string is non-empty with no whitespace at either end — the shape of
every stripped non-empty paragraph and of every chunk built from them. -/
def TrimmedNE (s : String) : Prop :=
  s.data ≠ [] ∧ (∀ c, s.data.head? = some c → isPySpace c = false) ∧
    (∀ c, s.data.getLast? = some c → isPySpace c = false)

/-- Stand-in for the third-party `RecursiveCharacterTextSplitter` fallback of
`semantic_split` (`self.basic_splitter.split_text`).  It is only reached when
paragraph splitting produced zero chunks, i.e. when every paragraph strips to
empty; no claim depends on its output, so it is modelled opaquely as the
identity chunking. -/
def basicSplit (text : String) : List String :=
  [text]

/-- The paragraph-accumulation loop of
`DiscourseAwareChunker.semantic_split`: `cur` is `current_chunk`, `acc` the
chunks emitted so far. -/
def semanticSplitLoop (chunk_size : Nat) : List String → String → List String → List String
  | [], cur, acc => if cur = "" then acc else acc ++ [pyStrip cur]
  | para :: rest, cur, acc =>
      let p := pyStrip para
      if p = "" then semanticSplitLoop chunk_size rest cur acc
      else if chunk_size < cur.length + p.length ∧ cur ≠ "" then
        semanticSplitLoop chunk_size rest p (acc ++ [pyStrip cur])
      else if cur ≠ "" then
        semanticSplitLoop chunk_size rest (cur ++ "\n\n" ++ p) acc
      else
        semanticSplitLoop chunk_size rest p acc

/-- `DiscourseAwareChunker.semantic_split`: split on blank lines, accumulate
stripped non-empty paragraphs into chunks of at most `chunk_size` characters
(except when a single paragraph overflows on its own), and fall back to the
basic splitter when no chunk was produced. -/
def semantic_split (chunk_size : Nat) (text : String) : List String :=
  let chunks := semanticSplitLoop chunk_size (pySplitParas text) "" []
  if chunks = [] then basicSplit text else chunks

/-- The stripped non-empty paragraphs of a paragraph list. -/
def cleanParasL (paras : List String) : List String :=
  (paras.map pyStrip).filter (fun s => !(s = ""))

/-- The stripped non-empty paragraphs of the input text: the reference value
for the `semantic_split` partition property. -/
def cleanParas (text : String) : List String :=
  cleanParasL (pySplitParas text)

end Chunker

namespace Meta

/-- A Python value as it occurs in metadata dictionaries and JSON documents.
Floats are carried as their literal text (`numLit`), which suffices because no
claim depends on float arithmetic; `none` is Python's `None`. -/
inductive PyVal where
  | str (s : String)
  | int (n : Int)
  | numLit (lex : String)
  | bool (b : Bool)
  | none
  | list (items : List PyVal)
  | dict (pairs : List (String × PyVal))

/-- JSON whitespace (the four characters the `json` module skips). -/
def isJsonWs (c : Char) : Bool :=
  c = ' ' || c = '\t' || c = '\n' || c = '\r'

/-- Skip JSON whitespace. -/
def skipWs (s : List Char) : List Char :=
  s.dropWhile isJsonWs

/-- Lower-case hex digit, as `%04x` uses. -/
def hexDig (d : Nat) : Char :=
  if d < 10 then Char.ofNat (48 + d) else Char.ofNat (87 + d)

/-- The four hex digits of `\uXXXX` for `n < 0x10000`. -/
def toHex4 (n : Nat) : List Char :=
  [hexDig (n / 4096 % 16), hexDig (n / 256 % 16), hexDig (n / 16 % 16), hexDig (n % 16)]

/-- Hex digit value (json accepts both cases when reading `\uXXXX`). -/
def decodeHexDigit (c : Char) : Option Nat :=
  if 48 ≤ c.toNat ∧ c.toNat ≤ 57 then some (c.toNat - 48)
  else if 97 ≤ c.toNat ∧ c.toNat ≤ 102 then some (c.toNat - 87)
  else if 65 ≤ c.toNat ∧ c.toNat ≤ 70 then some (c.toNat - 55)
  else Option.none

/-- Read four hex digits. -/
def fromHex4 (h1 h2 h3 h4 : Char) : Option Nat :=
  match decodeHexDigit h1, decodeHexDigit h2, decodeHexDigit h3, decodeHexDigit h4 with
  | some d1, some d2, some d3, some d4 => some (d1 * 4096 + d2 * 256 + d3 * 16 + d4)
  | _, _, _, _ => Option.none

/-- `json.dumps` escaping of one character with the default
`ensure_ascii=True`: the two specials and the named control escapes, `\uXXXX`
for other controls and for all non-ASCII, with a surrogate pair above the
basic multilingual plane. -/
def escChar (c : Char) : List Char :=
  if c = '"' then ['\\', '"']
  else if c = '\\' then ['\\', '\\']
  else if c = '\x08' then ['\\', 'b']
  else if c = '\x0c' then ['\\', 'f']
  else if c = '\n' then ['\\', 'n']
  else if c = '\r' then ['\\', 'r']
  else if c = '\t' then ['\\', 't']
  else if c.toNat < 0x20 then '\\' :: 'u' :: toHex4 c.toNat
  else if c.toNat < 0x7f then [c]
  else if c.toNat < 0x10000 then '\\' :: 'u' :: toHex4 c.toNat
  else
    ('\\' :: 'u' :: toHex4 (0xd800 + (c.toNat - 0x10000) / 0x400))
      ++ ('\\' :: 'u' :: toHex4 (0xdc00 + (c.toNat - 0x10000) % 0x400))

/-- The escaped body of a JSON string literal. -/
def dumpBody (cs : List Char) : List Char :=
  cs.flatMap escChar

mutual

/-- `json.dumps` with its default separators `(', ', ': ')`, at the character
level. -/
def dumpChars : PyVal → List Char
  | .str s => '"' :: (dumpBody s.data ++ ['"'])
  | .int n => (toString n).data
  | .numLit lex => lex.data
  | .bool true => ['t', 'r', 'u', 'e']
  | .bool false => ['f', 'a', 'l', 's', 'e']
  | .none => ['n', 'u', 'l', 'l']
  | .list items => '[' :: (dumpElemsChars items ++ [']'])
  | .dict pairs => '\x7b' :: (dumpMembersChars pairs ++ ['\x7d'])

/-- Array elements joined by `", "`. -/
def dumpElemsChars : List PyVal → List Char
  | [] => []
  | [v] => dumpChars v
  | v :: vs => dumpChars v ++ ',' :: ' ' :: dumpElemsChars vs

/-- Object members joined by `", "`, each as `"key": value`. -/
def dumpMembersChars : List (String × PyVal) → List Char
  | [] => []
  | [(k, v)] => ('"' :: (dumpBody k.data ++ ['"'])) ++ ':' :: ' ' :: dumpChars v
  | (k, v) :: ps =>
      (('"' :: (dumpBody k.data ++ ['"'])) ++ ':' :: ' ' :: dumpChars v)
        ++ ',' :: ' ' :: dumpMembersChars ps

end

/-- `json.dumps`. -/
def jsonDumps (v : PyVal) : String :=
  ⟨dumpChars v⟩

/-- The short escapes `json`'s scanner accepts after a backslash. -/
def simpleEsc (e : Char) : Option Char :=
  if e = '"' then some '"'
  else if e = '\\' then some '\\'
  else if e = '/' then some '/'
  else if e = 'b' then some '\x08'
  else if e = 'f' then some '\x0c'
  else if e = 'n' then some '\n'
  else if e = 'r' then some '\r'
  else if e = 't' then some '\t'
  else Option.none

/-- The low-surrogate half of an escaped surrogate pair: `\uXXXX` with XXXX
in DC00-DFFF. -/
def parseLowSurrogate : List Char → Option (Nat × List Char)
  | c1 :: c2 :: g1 :: g2 :: g3 :: g4 :: rest4 =>
    if c1 = '\\' ∧ c2 = 'u' then
      match fromHex4 g1 g2 g3 g4 with
      | some m => if 0xdc00 ≤ m ∧ m ≤ 0xdfff then some (m, rest4) else Option.none
      | Option.none => Option.none
    else Option.none
  | _ => Option.none

/-- A `\uXXXX` escape after the `\u` has been read, with surrogate-pair
recombination.  Lone surrogates are rejected (Python would keep them as
unpaired code units, which a unicode scalar string cannot represent). -/
def parseUEsc : List Char → Option (Char × List Char)
  | h1 :: h2 :: h3 :: h4 :: rest3 =>
    (match fromHex4 h1 h2 h3 h4 with
     | some n =>
       if 0xd800 ≤ n ∧ n ≤ 0xdbff then
         match parseLowSurrogate rest3 with
         | some (m, rest4) =>
             some (Char.ofNat (0x10000 + (n - 0xd800) * 0x400 + (m - 0xdc00)), rest4)
         | Option.none => Option.none
       else if 0xdc00 ≤ n ∧ n ≤ 0xdfff then Option.none
       else some (Char.ofNat n, rest3)
     | Option.none => Option.none)
  | _ => Option.none

/-- `py_scanstring` after the opening quote, in strict mode: literal
characters up to the closing quote (raw control characters rejected), short
escapes, and `\uXXXX` escapes.  The `fuel` argument is an embedding
artifact: every step consumes at least one input character, so the
`input length + 1` every caller passes can never run out. -/
def parseStringBody : Nat → List Char → Option (List Char × List Char)
  | 0, _ => Option.none
  | _ + 1, [] => Option.none
  | fuel + 1, c :: rest =>
    if c = '"' then some ([], rest)
    else if c = '\\' then
      match rest with
      | [] => Option.none
      | e :: rest2 =>
        if e = 'u' then
          match parseUEsc rest2 with
          | some (c2, rest3) => (parseStringBody fuel rest3).map (fun p => (c2 :: p.1, p.2))
          | Option.none => Option.none
        else
          match simpleEsc e with
          | some c2 => (parseStringBody fuel rest2).map (fun p => (c2 :: p.1, p.2))
          | Option.none => Option.none
    else if c.toNat < 0x20 then Option.none
    else (parseStringBody fuel rest).map (fun p => (c :: p.1, p.2))

/-- The integer part of the JSON number grammar: `0` or a nonzero digit
followed by digits. -/
def lexIntPart : List Char → Option (List Char × List Char)
  | '0' :: rest => some (['0'], rest)
  | c :: rest =>
      if c.isDigit then some (c :: rest.takeWhile Char.isDigit, rest.dropWhile Char.isDigit)
      else Option.none
  | [] => Option.none

/-- The optional fraction part `\.\d+`; not consumed when absent or
incomplete. -/
def lexFrac (r : List Char) : List Char × List Char :=
  match r with
  | '.' :: r2 =>
      let ds := r2.takeWhile Char.isDigit
      if ds.isEmpty then ([], r) else ('.' :: ds, r2.dropWhile Char.isDigit)
  | _ => ([], r)

/-- The optional exponent part `[eE][-+]?\d+`; not consumed when absent or
incomplete. -/
def lexExp (r : List Char) : List Char × List Char :=
  match r with
  | e :: r2 =>
      if e = 'e' ∨ e = 'E' then
        let (sgn, r3) :=
          match r2 with
          | c :: r4 => if c = '+' ∨ c = '-' then ([c], r4) else (([] : List Char), r2)
          | [] => ([], r2)
        let ds := r3.takeWhile Char.isDigit
        if ds.isEmpty then ([], r) else (e :: (sgn ++ ds), r3.dropWhile Char.isDigit)
      else ([], r)
  | [] => ([], r)

/-- Decimal value of a digit run. -/
def digitsVal (ds : List Char) : Nat :=
  ds.foldl (fun n c => 10 * n + (c.toNat - 48)) 0

/-- The JSON number match (`NUMBER_RE`): an integer becomes a Python `int`, a
number with fraction or exponent keeps its lexeme as a float literal. -/
def parseNumber (s : List Char) : Option (PyVal × List Char) :=
  let (neg, s1) :=
    match s with
    | '-' :: rest => (true, rest)
    | _ => (false, s)
  match lexIntPart s1 with
  | Option.none => Option.none
  | some (ip, r1) =>
      let (fp, r2) := lexFrac r1
      let (ep, r3) := lexExp r2
      if fp.isEmpty && ep.isEmpty then
        some (.int (if neg then -(digitsVal ip : Int) else (digitsVal ip : Int)), r3)
      else
        some (.numLit ⟨(if neg then ['-'] else []) ++ ip ++ fp ++ ep⟩, r3)

/-- The literal constants of the `json` scanner (`null`, `true`, `false`,
`NaN`, `Infinity`, `-Infinity`), falling through to the number match. -/
def parseConst (s : List Char) : Option (PyVal × List Char) :=
  match s with
  | 'n' :: 'u' :: 'l' :: 'l' :: rest => some (PyVal.none, rest)
  | 't' :: 'r' :: 'u' :: 'e' :: rest => some (PyVal.bool true, rest)
  | 'f' :: 'a' :: 'l' :: 's' :: 'e' :: rest => some (PyVal.bool false, rest)
  | 'N' :: 'a' :: 'N' :: rest => some (PyVal.numLit "NaN", rest)
  | 'I' :: 'n' :: 'f' :: 'i' :: 'n' :: 'i' :: 't' :: 'y' :: rest =>
      some (PyVal.numLit "Infinity", rest)
  | '-' :: 'I' :: 'n' :: 'f' :: 'i' :: 'n' :: 'i' :: 't' :: 'y' :: rest =>
      some (PyVal.numLit "-Infinity", rest)
  | s2 => parseNumber s2

mutual

/-- `json` value scanner (`JSONDecoder.scan_once`): whitespace, then a
string, array, object, literal constant, or number.  `fuel` bounds the
recursion into containers; `json_loads` supplies more fuel than any input
can consume (each container level and element consumes input), mirroring how
Python bounds the decoder by its recursion limit. -/
def parseValue : Nat → List Char → Option (PyVal × List Char)
  | fuel, s =>
    match skipWs s with
    | [] => Option.none
    | c :: rest =>
      if c = '"' then
        (parseStringBody (rest.length + 1) rest).map (fun p => (PyVal.str ⟨p.1⟩, p.2))
      else if c = '[' then
        match fuel with
        | 0 => Option.none
        | f + 1 =>
          match skipWs rest with
          | ']' :: rest2 => some (PyVal.list [], rest2)
          | r => (parseElems f r).map (fun p => (PyVal.list p.1, p.2))
      else if c = '\x7b' then
        match fuel with
        | 0 => Option.none
        | f + 1 =>
          match skipWs rest with
          | '\x7d' :: rest2 => some (PyVal.dict [], rest2)
          | r => (parseMembers f r).map (fun p => (PyVal.dict p.1, p.2))
      else parseConst (c :: rest)

/-- One-or-more comma-separated array elements up to `]`. -/
def parseElems : Nat → List Char → Option (List PyVal × List Char)
  | 0, _ => Option.none
  | f + 1, s =>
    match parseValue f s with
    | Option.none => Option.none
    | some (v, r) =>
      match skipWs r with
      | [] => Option.none
      | c :: r2 =>
        if c = ',' then
          match parseElems f r2 with
          | some (vs, rest) => some (v :: vs, rest)
          | Option.none => Option.none
        else if c = ']' then some ([v], r2)
        else Option.none

/-- One-or-more comma-separated object members up to the closing brace. -/
def parseMembers : Nat → List Char → Option (List (String × PyVal) × List Char)
  | 0, _ => Option.none
  | f + 1, s =>
    match skipWs s with
    | [] => Option.none
    | c :: rest =>
      if c = '"' then
        match parseStringBody (rest.length + 1) rest with
        | some (k, r) =>
          (match skipWs r with
           | c2 :: r2 =>
             if c2 = ':' then
               match parseValue f r2 with
               | some (v, r3) =>
                 (match skipWs r3 with
                  | c3 :: r4 =>
                    if c3 = ',' then
                      match parseMembers f r4 with
                      | some (ps, rest2) => some ((⟨k⟩, v) :: ps, rest2)
                      | Option.none => Option.none
                    else if c3 = '\x7d' then some ([(⟨k⟩, v)], r4)
                    else Option.none
                  | [] => Option.none)
               | Option.none => Option.none
             else Option.none
           | [] => Option.none)
        | Option.none => Option.none
      else Option.none

end

/-- `json.loads` on a string: scan one value and require only whitespace
after it ("Extra data" otherwise); `Option.none` models a raised
`JSONDecodeError`. -/
def json_loads (s : String) : Option PyVal :=
  match parseValue (s.data.length + 1) s.data with
  | some (v, rest) => if skipWs rest = [] then some v else Option.none
  | Option.none => Option.none

/-- A metadata dictionary, as an association list with first-occurrence
lookup. -/
def Record := List (String × PyVal)

/-- The two list-valued keys `to_storage_format`/`from_storage_format`
serialize. -/
def storageListKeys : List String := ["themes", "related_nodes"]

/-- `isinstance(v, list)`. -/
def isList : PyVal → Bool
  | .list _ => true
  | _ => false

/-- `MetadataEnricher.to_storage_format`: copy the record and replace a
list-valued `themes`/`related_nodes` entry by its `json.dumps` string. -/
def to_storage_format (m : Record) : Record :=
  m.map (fun kv =>
    if kv.1 ∈ storageListKeys ∧ isList kv.2 then (kv.1, PyVal.str (jsonDumps kv.2)) else kv)

/-- `MetadataEnricher.from_storage_format`: copy the record and replace a
string-valued `themes`/`related_nodes` entry by its parsed value, falling
back to the empty list when `json.loads` raises (the bare `except` branch). -/
def from_storage_format (m : Record) : Record :=
  m.map (fun kv =>
    if kv.1 ∈ storageListKeys then
      match kv.2 with
      | PyVal.str s =>
          (kv.1, match json_loads s with
                 | some v => v
                 | Option.none => PyVal.list [])
      | v => (kv.1, v)
    else kv)

/-- pydantic v1 validation of a `str`-typed field: `str` values pass, and
`int`/`float`/`bool` (a `bool` is an `int` in Python) are coerced via `str`;
everything else is rejected. -/
def coerceStr : PyVal → Option String
  | .str s => some s
  | .int n => some (toString n)
  | .bool b => some (if b then "True" else "False")
  | .numLit lex => some lex
  | _ => Option.none

/-- pydantic v1 validation of a `List[str]` value: a list whose elements are
all `str`-coercible. -/
def strListOk : PyVal → Bool
  | .list items => items.all (fun v => (coerceStr v).isSome)
  | _ => false

/-- The `themes` field: its `pre=True` validator `parse_themes` turns any
string into a list of stripped comma-separated strings (always a valid
`List[str]`), so a string always passes; otherwise ordinary `List[str]`
validation applies. -/
def themesOk : PyVal → Bool
  | .str _ => true
  | v => strListOk v

/-- pydantic v1 validation of a `bool` field (`bool_validator`): booleans,
the ints 0/1, and the usual true/false string spellings.  Float 0.0/1.0 is
also accepted by pydantic; floats are modelled conservatively as rejected,
which no claim exercises. -/
def boolOk : PyVal → Bool
  | .bool _ => true
  | .int n => n == 0 || n == 1
  | .str s =>
      s.toLower ∈ ["0", "off", "f", "false", "n", "no", "1", "on", "t", "true", "y", "yes"]
  | _ => false

/-- A string `int(...)` accepts: optional surrounding whitespace, optional
sign, at least one digit. -/
def intLiteral (s : String) : Bool :=
  match (s.trim).data with
  | '-' :: ds => !ds.isEmpty && ds.all Char.isDigit
  | '+' :: ds => !ds.isEmpty && ds.all Char.isDigit
  | ds => !ds.isEmpty && ds.all Char.isDigit

/-- pydantic v1 validation of an `int` field: ints and bools, numeric
strings, and floats (truncated by `int(v)`). -/
def intOk : PyVal → Bool
  | .int _ => true
  | .bool _ => true
  | .str s => intLiteral s
  | .numLit _ => true
  | _ => false

/-- A required `str` field of `CulturalMetadata`: must be present and
coercible. -/
def reqStrOk (m : Record) (key : String) : Bool :=
  match m.lookup key with
  | some v => (coerceStr v).isSome
  | Option.none => false

/-- A defaulted `str` field: validated only when supplied. -/
def defStrOk (m : Record) (key : String) : Bool :=
  match m.lookup key with
  | some v => (coerceStr v).isSome
  | Option.none => true

/-- An `Optional[str]` field: absent or `None` allowed, otherwise coercible. -/
def optStrOk (m : Record) (key : String) : Bool :=
  match m.lookup key with
  | some PyVal.none => true
  | some v => (coerceStr v).isSome
  | Option.none => true

/-- `MetadataEnricher.validate_metadata`: builds a `CulturalMetadata` from
the record; `true` is the `return True` path, `false` the re-raised
`ValueError`.  Every declared field is checked for presence/shape as pydantic
v1 does; `Config.extra = 'allow'` means unknown keys are accepted untouched.
No field carries a vocabulary constraint: the enum-like fields
(`source_type`, `authority_level`, `epistemic_origin`, `discourse_position`,
`chunk_role`, `sensitivity`) are declared as plain `str`. -/
def validate_metadata (m : Record) : Bool :=
  reqStrOk m "title" && reqStrOk m "source_type" && reqStrOk m "authority_level"
    && reqStrOk m "epistemic_origin"
    && (match m.lookup "themes" with
        | some v => themesOk v
        | Option.none => true)
    && defStrOk m "discourse_position" && defStrOk m "chunk_role"
    && defStrOk m "language" && defStrOk m "region"
    && defStrOk m "sensitivity" && defStrOk m "ingest_policy"
    && (match m.lookup "related_nodes" with
        | some v => strListOk v
        | Option.none => true)
    && (match m.lookup "has_citation" with
        | some v => boolOk v
        | Option.none => true)
    && optStrOk m "embedding_version" && optStrOk m "embedding_model"
    && optStrOk m "folder_path" && optStrOk m "filename"
    && (match m.lookup "chunk_index" with
        | some PyVal.none => true
        | some v => intOk v
        | Option.none => true)
    && optStrOk m "ingested_at"

end Meta

section Fixtures

/-- A situated-authority retrieval candidate used in concrete scenarios. -/
def dSit : Retriever.RDoc :=
  ⟨"doc-situated", some "community_archive", some "community", some "situated"⟩

/-- An academic-authority retrieval candidate used in concrete scenarios. -/
def dAca : Retriever.RDoc :=
  ⟨"doc-academic", some "academic_research", some "academic", some "academic"⟩

/-- Helper for building epistemic-retrieval candidates: a document whose
`epistemic_origin` metadata is the given value. -/
def mkEpi (i : String) (eo : String) : Retriever.RDoc :=
  ⟨i, some eo, some "community", some "situated"⟩

/-- A pool of nine candidates (as from `search(query, 3*3)`) of which exactly
two carry `epistemic_origin = "local_knowledge"`. -/
def pool9 : List (Retriever.RDoc × ℚ) :=
  [(mkEpi "c1" "academic_research", 9), (mkEpi "c2" "media_discourse", 8),
   (mkEpi "c3" "academic_research", 7), (mkEpi "c4" "local_knowledge", 6),
   (mkEpi "c5" "historical_archive", 5), (mkEpi "c6" "media_discourse", 4),
   (mkEpi "c7" "local_knowledge", 3), (mkEpi "c8" "academic_research", 2),
   (mkEpi "c9" "media_discourse", 1)]

/-- A store with a single document carrying themes `a` and `b`. -/
def exThemeStore : KStore.Store :=
  ⟨[⟨1, "v1", "community", "situated", "community_archive", "id", ["a", "b"]⟩], []⟩

/-- A store with a single document whose `source_type` is "colonialism" and
whose only theme is "archival", exhibiting the scrambled parameter binding of
`query_by_filters` when a theme filter meets an equality filter. -/
def cexC2Store : KStore.Store :=
  ⟨[⟨1, "v1", "colonialism", "situated", "community_archive", "id", ["archival"]⟩], []⟩

/-- A store with a single document `"a"`, used for the dangling `link`
scenario. -/
def exLinkStore : KStore.Store :=
  ⟨[⟨1, "a", "community", "situated", "community_archive", "id", []⟩], []⟩

/-- A metadata record whose `authority_level` is outside the five-value
vocabulary but well-typed otherwise. -/
def cexMeta : Meta.Record :=
  [("title", Meta.PyVal.str "Sejarah"), ("source_type", Meta.PyVal.str "community"),
   ("authority_level", Meta.PyVal.str "galactic"),
   ("epistemic_origin", Meta.PyVal.str "local_knowledge")]

end Fixtures

section Theorems

open Curator KStore Retriever Chunker

/-- C1: a path under the corpus root whose first remaining segment is one of
community/academic/media/archival classifies as that segment with the fixed
authority/origin pair; any other first segment, and any path not under the
root, derives situated authority and local_knowledge origin. -/
theorem c1_curatorial_classification (root parts : List String) :
    (∀ first tail, root.isPrefixOf parts = true →
      parts.drop root.length = first :: tail →
      ((first = "community" →
          extract_source_type root parts = "community" ∧
          determine_authority_level (extract_source_type root parts) = .situated ∧
          determine_epistemic_origin (extract_source_type root parts) = .community_archive) ∧
       (first = "academic" →
          extract_source_type root parts = "academic" ∧
          determine_authority_level (extract_source_type root parts) = .academic ∧
          determine_epistemic_origin (extract_source_type root parts) = .academic_research) ∧
       (first = "media" →
          extract_source_type root parts = "media" ∧
          determine_authority_level (extract_source_type root parts) = .media ∧
          determine_epistemic_origin (extract_source_type root parts) = .media_discourse) ∧
       (first = "archival" →
          extract_source_type root parts = "archival" ∧
          determine_authority_level (extract_source_type root parts) = .archival ∧
          determine_epistemic_origin (extract_source_type root parts) = .historical_archive) ∧
       (first ∉ (["community", "academic", "media", "archival"] : List String) →
          determine_authority_level (extract_source_type root parts) = .situated ∧
          determine_epistemic_origin (extract_source_type root parts) = .local_knowledge))) ∧
    (root.isPrefixOf parts = false →
      determine_authority_level (extract_source_type root parts) = .situated ∧
      determine_epistemic_origin (extract_source_type root parts) = .local_knowledge) := by
  have hgen : determine_authority_level (legacyFallback parts) = .situated ∧
      determine_epistemic_origin (legacyFallback parts) = .local_knowledge := by
    have : legacyFallback parts = "general" := by
      unfold legacyFallback
      exact ite_self _
    rw [this]
    exact ⟨rfl, rfl⟩
  constructor
  · intro first tail hpre hdrop
    refine ⟨?_, ?_, ?_, ?_, ?_⟩
    · rintro rfl
      have hext : extract_source_type root parts = "community" := by
        unfold extract_source_type
        rw [if_pos hpre, hdrop]
        rfl
      exact ⟨hext, by rw [hext]; rfl, by rw [hext]; rfl⟩
    · rintro rfl
      have hext : extract_source_type root parts = "academic" := by
        unfold extract_source_type
        rw [if_pos hpre, hdrop]
        rfl
      exact ⟨hext, by rw [hext]; rfl, by rw [hext]; rfl⟩
    · rintro rfl
      have hext : extract_source_type root parts = "media" := by
        unfold extract_source_type
        rw [if_pos hpre, hdrop]
        rfl
      exact ⟨hext, by rw [hext]; rfl, by rw [hext]; rfl⟩
    · rintro rfl
      have hext : extract_source_type root parts = "archival" := by
        unfold extract_source_type
        rw [if_pos hpre, hdrop]
        rfl
      exact ⟨hext, by rw [hext]; rfl, by rw [hext]; rfl⟩
    · intro hnot
      simp only [List.mem_cons, List.not_mem_nil, or_false, not_or] at hnot
      obtain ⟨h1, h2, h3, h4⟩ := hnot
      have hmap : SOURCE_TYPE_MAP first = none := by
        unfold SOURCE_TYPE_MAP
        rw [if_neg h1, if_neg h2, if_neg h3, if_neg h4]
      have hext : extract_source_type root parts = legacyFallback parts := by
        unfold extract_source_type
        rw [if_pos hpre, hdrop]
        simp [hmap]
      rw [hext]
      exact hgen
  · intro hpre
    have hext : extract_source_type root parts = legacyFallback parts := by
      unfold extract_source_type
      rw [if_neg (by simp [hpre])]
    rw [hext]
    exact hgen

/-- C1 witness: the classifier on a concrete community path. -/
theorem c1_curatorial_classification_witness :
    extract_source_type ["knowledge_base"] ["knowledge_base", "community", "cerita.md"]
        = "community" ∧
    determine_authority_level
        (extract_source_type ["knowledge_base"] ["knowledge_base", "community", "cerita.md"])
        = .situated ∧
    determine_epistemic_origin
        (extract_source_type ["knowledge_base"] ["knowledge_base", "community", "cerita.md"])
        = .community_archive :=
  ((c1_curatorial_classification ["knowledge_base"]
      ["knowledge_base", "community", "cerita.md"]).1
    "community" ["cerita.md"] (by decide) rfl).1 rfl

/-- C8: `link` on a store where either endpoint's vector id resolves to no
document returns false and leaves the store (in particular the relations
table) unchanged. -/
theorem c8_link_unresolvable (st : Store) (now a b t : String)
    (h : lookupDocId st a = none ∨ lookupDocId st b = none) :
    add_relation st now a b t = (false, st) ∧
    (add_relation st now a b t).2.relations = st.relations := by
  have main : add_relation st now a b t = (false, st) := by
    unfold add_relation
    cases ha : lookupDocId st a <;> cases hb : lookupDocId st b <;>
      simp_all
  exact ⟨main, by rw [main]⟩

/-- C8 witness: `link("a", "b", "cites")` with `b` absent returns false and
creates no relation row. -/
theorem c8_link_unresolvable_witness :
    add_relation exLinkStore "2026-01-01T00:00:00" "a" "b" "cites" = (false, exLinkStore) ∧
    (add_relation exLinkStore "2026-01-01T00:00:00" "a" "b" "cites").2.relations
      = exLinkStore.relations :=
  c8_link_unresolvable exLinkStore "2026-01-01T00:00:00" "a" "b" "cites" (Or.inr (by decide))

/-- C5: role classification is a fixed priority chain over the lowercased
text — question, then definition, then example, then counter-argument, then
argument, then narrative cues — and the first matching category is the single
returned role, with unknown when nothing matches. -/
theorem c5_role_priority (text : String) :
    (anySub QUESTION_PATTERNS (pyLower text) = true →
       classify_chunk_role text = .question) ∧
    (anySub QUESTION_PATTERNS (pyLower text) = false →
     anySub DEFINITION_PATTERNS (pyLower text) = true →
       classify_chunk_role text = .definition) ∧
    (anySub QUESTION_PATTERNS (pyLower text) = false →
     anySub DEFINITION_PATTERNS (pyLower text) = false →
     anySub EXAMPLE_PATTERNS (pyLower text) = true →
       classify_chunk_role text = .example) ∧
    (anySub QUESTION_PATTERNS (pyLower text) = false →
     anySub DEFINITION_PATTERNS (pyLower text) = false →
     anySub EXAMPLE_PATTERNS (pyLower text) = false →
     anySub COUNTER_PATTERNS (pyLower text) = true →
       classify_chunk_role text = .counter_argument) ∧
    (anySub QUESTION_PATTERNS (pyLower text) = false →
     anySub DEFINITION_PATTERNS (pyLower text) = false →
     anySub EXAMPLE_PATTERNS (pyLower text) = false →
     anySub COUNTER_PATTERNS (pyLower text) = false →
     anySub ARGUMENT_PATTERNS (pyLower text) = true →
       classify_chunk_role text = .argument) ∧
    (anySub QUESTION_PATTERNS (pyLower text) = false →
     anySub DEFINITION_PATTERNS (pyLower text) = false →
     anySub EXAMPLE_PATTERNS (pyLower text) = false →
     anySub COUNTER_PATTERNS (pyLower text) = false →
     anySub ARGUMENT_PATTERNS (pyLower text) = false →
     anyWb NARRATIVE_MARKERS (pyLower text) = true →
       classify_chunk_role text = .narrative) ∧
    (anySub QUESTION_PATTERNS (pyLower text) = false →
     anySub DEFINITION_PATTERNS (pyLower text) = false →
     anySub EXAMPLE_PATTERNS (pyLower text) = false →
     anySub COUNTER_PATTERNS (pyLower text) = false →
     anySub ARGUMENT_PATTERNS (pyLower text) = false →
     anyWb NARRATIVE_MARKERS (pyLower text) = false →
       classify_chunk_role text = .unknown) := by
  refine ⟨?_, ?_, ?_, ?_, ?_, ?_, ?_⟩ <;>
    intros <;> simp_all [classify_chunk_role]

/-- C5 witness: a question cue wins. -/
theorem c5_role_priority_witness : classify_chunk_role "Bagaimana adalah ini" = .question :=
  (c5_role_priority "Bagaimana adalah ini").1 (by rfl)

/-- C6: stance is critical for counter-argument chunks, questioning for
question chunks, and otherwise decided by strict comparison of
critical-lexicon vs supportive-lexicon hit counts with neutral on a tie; in
particular a chunk whose lowercased text contains "namun" and "masalah" and
matches no question/definition/example cue is classified
counter_argument/critical. -/
theorem c6_stance_rules (text : String) (role : ChunkRole) :
    (detect_discourse_position text .counter_argument = .critical) ∧
    (detect_discourse_position text .question = .questioning) ∧
    (role ≠ .counter_argument → role ≠ .question →
      ((markerCount supportive_markers (pyLower text) < markerCount critical_markers (pyLower text) →
          detect_discourse_position text role = .critical) ∧
       (markerCount critical_markers (pyLower text) < markerCount supportive_markers (pyLower text) →
          detect_discourse_position text role = .supportive) ∧
       (markerCount critical_markers (pyLower text) = markerCount supportive_markers (pyLower text) →
          detect_discourse_position text role = .neutral))) ∧
    (strContains (pyLower text) "namun" = true →
     strContains (pyLower text) "masalah" = true →
     anySub QUESTION_PATTERNS (pyLower text) = false →
     anySub DEFINITION_PATTERNS (pyLower text) = false →
     anySub EXAMPLE_PATTERNS (pyLower text) = false →
       classify_chunk_role text = .counter_argument ∧
       detect_discourse_position text (classify_chunk_role text) = .critical) := by
  refine ⟨?_, ?_, ?_, ?_⟩
  · simp [detect_discourse_position]
  · simp [detect_discourse_position]
  · intro h1 h2
    refine ⟨?_, ?_, ?_⟩ <;> intro hcmp <;>
      simp only [detect_discourse_position, if_neg h1, if_neg h2]
    · rw [if_pos hcmp]
    · rw [if_neg (by omega), if_pos hcmp]
    · rw [if_neg (by omega), if_neg (by omega)]
  · intro hn _hm hq hd he
    have hcounter : anySub COUNTER_PATTERNS (pyLower text) = true := by
      unfold anySub
      rw [List.any_eq_true]
      exact ⟨"namun", by decide, hn⟩
    have hrole : classify_chunk_role text = .counter_argument := by
      simp_all [classify_chunk_role]
    rw [hrole]
    exact ⟨rfl, by simp [detect_discourse_position]⟩

/-- C6 witness: the concrete scenario text. -/
theorem c6_stance_rules_witness :
    classify_chunk_role "Namun ada masalah" = .counter_argument ∧
    detect_discourse_position "Namun ada masalah"
      (classify_chunk_role "Namun ada masalah") = .critical :=
  ((c6_stance_rules "Namun ada masalah" .unknown).2.2.2)
    (by rfl) (by rfl) (by rfl) (by rfl) (by rfl)

/-- The epistemic accumulation loop is take-after-filter as long as the
accumulator is still short of `k`. -/
theorem epistemicLoop_spec (eo st al : Option String) (k : Nat) :
    ∀ (cs acc : List (Retriever.RDoc × ℚ)), acc.length < k →
      epistemicLoop eo st al k cs acc
        = acc ++ (cs.filter (fun c => epistemicPass c.1 eo st al)).take (k - acc.length) := by
  intro cs
  induction cs with
  | nil => intro acc _; simp [epistemicLoop]
  | cons c cs ih =>
    intro acc hlt
    rw [epistemicLoop]
    by_cases hp : epistemicPass c.1 eo st al = true
    · have hf : List.filter (fun x => epistemicPass x.1 eo st al) (c :: cs)
          = c :: List.filter (fun x => epistemicPass x.1 eo st al) cs := by
        simp [List.filter_cons, hp]
      rw [if_pos hp, hf]
      by_cases hk : k ≤ (acc ++ [c]).length
      · rw [if_pos hk]
        have hlen : k - acc.length = 1 := by
          simp only [List.length_append, List.length_singleton] at hk
          omega
        rw [hlen]
        simp
      · rw [if_neg hk]
        have hlt2 : (acc ++ [c]).length < k := by omega
        rw [ih _ hlt2]
        have hstep : k - acc.length = (k - (acc ++ [c]).length) + 1 := by
          simp only [List.length_append, List.length_singleton] at hk ⊢
          omega
        rw [hstep, List.take_succ_cons]
        simp
    · have hf : List.filter (fun x => epistemicPass x.1 eo st al) (c :: cs)
          = List.filter (fun x => epistemicPass x.1 eo st al) cs := by
        simp [List.filter_cons, hp]
      rw [if_neg hp, hf, ih acc hlt]

/-- C7: epistemic retrieval keeps, in candidate (similarity) order, exactly
the candidates passing the conjunctive filter, stopping once `k` survive;
with fewer than `k` matches all and only the matches are returned — in the
concrete 9-candidate pool with exactly 2 matches and k=3, exactly those 2. -/
theorem c7_epistemic_filter (cands : List (Retriever.RDoc × ℚ))
    (eo st al : Option String) (k : Nat) (hk : 0 < k) :
    retrieve_epistemic cands eo st al k
      = ((cands.filter (fun c => epistemicPass c.1 eo st al)).take k).map (·.1) ∧
    retrieve_epistemic pool9 (some "local_knowledge") none none 3
      = [mkEpi "c4" "local_knowledge", mkEpi "c7" "local_knowledge"] := by
  constructor
  · unfold retrieve_epistemic
    rw [epistemicLoop_spec eo st al k cands [] (by simpa using hk)]
    simp
  · rfl

/-- C7 witness: the concrete pool scenario (no padding when only 2 match). -/
theorem c7_epistemic_filter_witness :
    retrieve_epistemic pool9 (some "local_knowledge") none none 3
      = [mkEpi "c4" "local_knowledge", mkEpi "c7" "local_knowledge"] :=
  (c7_epistemic_filter pool9 (some "local_knowledge") none none 3 (by decide)).2

/-- A distinct-match count equal to the length of the requested list forces
set containment of the requested themes in the document's themes. -/
theorem themeMatchCount_full (dthemes themes : List String)
    (h : ((dthemes.filter (fun t => themes.contains t)).dedup).length = themes.length) :
    ∀ t ∈ themes, t ∈ dthemes := by
  set F := (dthemes.filter (fun t => themes.contains t)).dedup with hF
  have hnodup : F.Nodup := List.nodup_dedup _
  have hsubset : F.toFinset ⊆ themes.toFinset := by
    intro x hx
    rw [List.mem_toFinset] at hx ⊢
    rw [hF, List.mem_dedup] at hx
    have := List.of_mem_filter hx
    simpa using this
  have hcardF : F.toFinset.card = themes.length := by
    rw [List.toFinset_card_of_nodup hnodup, h]
  have hle : themes.toFinset.card ≤ F.toFinset.card := by
    rw [hcardF]
    exact List.toFinset_card_le themes
  have heq : F.toFinset = themes.toFinset := Finset.eq_of_subset_of_card_le hsubset hle
  intro t ht
  have : t ∈ F.toFinset := by
    rw [heq, List.mem_toFinset]
    exact ht
  rw [List.mem_toFinset, hF, List.mem_dedup] at this
  exact List.mem_of_mem_filter this

/-- C2 (the regime the code gets right): with a non-empty theme filter and
no active equality filter, `query_by_filters` returns a vector id only for a
stored document carrying every requested theme; concretely, a document with
themes a,b matches the filters requiring a and requiring a,b, but not the
one requiring a,c.  With an active equality filter the claimed containment
fails on the code — the positional parameter binding scrambles the query —
see the counterexample. -/
theorem c2_theme_containment (st : Store)
    (stf alf eof lang : Option String) (themes : List String) (lim : Nat) (v : String)
    (hst : activeFilter stf = none) (hal : activeFilter alf = none)
    (heo : activeFilter eof = none) (hlang : activeFilter lang = none)
    (hne : themes ≠ []) (hmem : v ∈ query_by_filters st stf alf eof themes lang lim) :
    (∃ d, d ∈ st.documents ∧ d.vector_id = v ∧ ∀ t ∈ themes, t ∈ d.themes) ∧
    query_by_filters exThemeStore none none none ["a"] none 100 = ["v1"] ∧
    query_by_filters exThemeStore none none none ["a", "b"] none 100 = ["v1"] ∧
    query_by_filters exThemeStore none none none ["a", "c"] none 100 = [] := by
  refine ⟨?_, by decide, by decide, by decide⟩
  have hcp : whereClausesParams stf alf eof lang = ([], []) := by
    unfold whereClausesParams
    rw [hst, hal, heo, hlang]
    rfl
  unfold query_by_filters at hmem
  rw [hcp] at hmem
  rw [if_neg (by simpa using hne)] at hmem
  simp only [List.nil_append, List.take_length, List.zip_nil_left, List.all_nil,
    Bool.and_true] at hmem
  have hmem2 := List.mem_of_mem_take hmem
  obtain ⟨d, hd, hdv⟩ := List.mem_map.mp hmem2
  refine ⟨d, List.mem_of_mem_filter hd, hdv, ?_⟩
  have := List.of_mem_filter hd
  have hcount : themeMatchCount d themes = themes.length := by
    simpa using this
  exact themeMatchCount_full d.themes themes hcount

/-- C2 witness: the containment consequence on the concrete store. -/
theorem c2_theme_containment_witness :
    ∃ d, d ∈ exThemeStore.documents ∧ d.vector_id = "v1" ∧ ∀ t ∈ ["a", "b"], t ∈ d.themes :=
  (c2_theme_containment exThemeStore none none none none ["a", "b"] 100 "v1"
    rfl rfl rfl rfl (by decide) (by decide)).1

/-- C2 counterexample: the code appends `params` as
[equality filters, themes, count, limit] while the SQL places the theme
IN-list placeholders first, so positional binding executes
`WHERE t.name IN ('archival') AND source_type = 'colonialism'` for the call
`query_by_filters(source_type="archival", themes=["colonialism"])`.  The
stored document is returned although its only theme is "archival", not the
requested "colonialism": the claimed containment property fails on the code
whenever a theme filter is combined with an active equality filter. -/
theorem c2_theme_containment_counterexample :
    query_by_filters cexC2Store (some "archival") none none ["colonialism"] none 100 = ["v1"]
    ∧ cexC2Store.documents
        = [⟨1, "v1", "colonialism", "situated", "community_archive", "id", ["archival"]⟩]
    ∧ "colonialism" ∉ (["archival"] : List String) := by
  refine ⟨by decide, rfl, by decide⟩

/-- C3 counterexample: a record whose `authority_level` is far outside the
five-value vocabulary passes `validate_metadata` — the claim that such a
record is rejected is false on the code, whose `CulturalMetadata` declares
the field as a plain string. -/
theorem c3_vocabulary_counterexample :
    Meta.validate_metadata cexMeta = true ∧
    List.lookup "authority_level" cexMeta = some (Meta.PyVal.str "galactic") ∧
    "galactic" ∉ (["situated", "academic", "institutional", "media", "archival"] :
      List String) := by
  refine ⟨rfl, rfl, by decide⟩

/-- C3 amended: validation never inspects the vocabulary of a
closed-vocabulary string field — the result is invariant under replacing the
`authority_level` string by any other string — while genuine shape
violations (missing required field, non-string-coercible themes) are
rejected. -/
theorem c3_vocabulary_amended :
    (∀ (m : Meta.Record) (s₁ s₂ : String),
       Meta.validate_metadata (("authority_level", Meta.PyVal.str s₁) :: m)
         = Meta.validate_metadata (("authority_level", Meta.PyVal.str s₂) :: m)) ∧
    Meta.validate_metadata
      [("title", Meta.PyVal.str "t"), ("source_type", Meta.PyVal.str "community"),
       ("epistemic_origin", Meta.PyVal.str "local_knowledge")] = false ∧
    Meta.validate_metadata (("themes", Meta.PyVal.int 3) :: cexMeta) = false := by
  refine ⟨?_, rfl, rfl⟩
  intro m s₁ s₂
  simp [Meta.validate_metadata, Meta.reqStrOk, Meta.defStrOk, Meta.optStrOk,
    Meta.coerceStr, List.lookup]

/-- Stable descending insertion permutes. -/
theorem insertDesc_perm {α : Type} (key : α → ℚ) (x : α) :
    ∀ l : List α, List.Perm (insertDesc key x l) (x :: l) := by
  intro l
  induction l with
  | nil => exact List.Perm.refl _
  | cons y ys ih =>
    rw [insertDesc]
    by_cases h : key y ≤ key x
    · rw [if_pos h]
    · rw [if_neg h]
      exact (List.Perm.cons y ih).trans (List.Perm.swap x y ys)

/-- The stable descending sort permutes. -/
theorem sortDescBy_perm {α : Type} (key : α → ℚ) :
    ∀ l : List α, List.Perm (sortDescBy key l) l := by
  intro l
  induction l with
  | nil => exact List.Perm.refl _
  | cons x xs ih =>
    rw [sortDescBy]
    exact (insertDesc_perm key x (sortDescBy key xs)).trans (List.Perm.cons x ih)

/-- Stable descending insertion preserves descending sortedness. -/
theorem insertDesc_sorted {α : Type} (key : α → ℚ) (x : α) :
    ∀ l : List α, l.Pairwise (fun a b => key b ≤ key a) →
      (insertDesc key x l).Pairwise (fun a b => key b ≤ key a) := by
  intro l
  induction l with
  | nil => intro _; simp [insertDesc]
  | cons y ys ih =>
    intro hp
    obtain ⟨hy, hys⟩ := List.pairwise_cons.mp hp
    rw [insertDesc]
    by_cases h : key y ≤ key x
    · rw [if_pos h]
      refine List.pairwise_cons.mpr ⟨?_, hp⟩
      intro z hz
      rcases List.mem_cons.mp hz with rfl | hz
      · exact h
      · exact le_trans (hy z hz) h
    · rw [if_neg h]
      refine List.pairwise_cons.mpr ⟨?_, ih hys⟩
      intro z hz
      have hz2 := (insertDesc_perm key x ys).mem_iff.mp hz
      rcases List.mem_cons.mp hz2 with rfl | hz2
      · exact le_of_not_le h
      · exact hy z hz2

/-- The stable descending sort sorts descending by the key. -/
theorem sortDescBy_sorted {α : Type} (key : α → ℚ) :
    ∀ l : List α, (sortDescBy key l).Pairwise (fun a b => key b ≤ key a) := by
  intro l
  induction l with
  | nil => simp [sortDescBy]
  | cons x xs ih =>
    rw [sortDescBy]
    exact insertDesc_sorted key x _ ih

/-- Stability of the insertion, phrased by key classes: within any fixed key
value, insertion puts `x` in front exactly when it has that key. -/
theorem insertDesc_filter {α : Type} (key : α → ℚ) (x : α) (q : ℚ) :
    ∀ l : List α,
      (insertDesc key x l).filter (fun a => decide (key a = q))
        = if key x = q then x :: l.filter (fun a => decide (key a = q))
          else l.filter (fun a => decide (key a = q)) := by
  intro l
  induction l with
  | nil =>
    by_cases hx : key x = q <;> simp [insertDesc, List.filter, hx]
  | cons y ys ih =>
    rw [insertDesc]
    by_cases h : key y ≤ key x
    · rw [if_pos h]
      by_cases hx : key x = q <;> simp [List.filter_cons, hx]
    · rw [if_neg h]
      have hxy : key x < key y := lt_of_not_le h
      by_cases hx : key x = q
      · have hyq : ¬(key y = q) := by
          intro hyq
          rw [hx] at hxy
          rw [hyq] at hxy
          exact lt_irrefl q hxy
        rw [if_pos hx]
        simp [List.filter_cons, hyq, ih, hx]
      · rw [if_neg hx]
        by_cases hyq : key y = q <;> simp [List.filter_cons, hyq, ih, hx]

/-- Stability of the stable descending sort: each key class keeps its
original order (elements with equal adjusted score stay in input order). -/
theorem sortDescBy_filter {α : Type} (key : α → ℚ) (q : ℚ) :
    ∀ l : List α,
      (sortDescBy key l).filter (fun a => decide (key a = q))
        = l.filter (fun a => decide (key a = q)) := by
  intro l
  induction l with
  | nil => rfl
  | cons x xs ih =>
    rw [sortDescBy, insertDesc_filter]
    by_cases hx : key x = q <;> simp [List.filter_cons, hx, ih]

/-- C4 (amended): authority-ranked retrieval multiplies each similarity by
the per-authority weight (with the extra 13/10 situated boost when enabled),
re-sorts descending by adjusted score keeping ties in original order, and
returns the top k; with boosting enabled a situated candidate ranks above an
academic candidate of equal **positive** raw similarity. -/
theorem c4_authority_ranking (boost_community : Bool) (k : Nat)
    (cands : List (Retriever.RDoc × ℚ)) (dS dA : Retriever.RDoc) (s : ℚ) (hs : 0 < s)
    (hSa : dS.authority_level = some "situated")
    (hAa : dA.authority_level = some "academic")
    (hmS : (dS, s) ∈ cands) (hmA : (dA, s) ∈ cands) :
    retrieve_authority_ranked boost_community k cands
      = ((authorityRankedScored boost_community cands).take k).map Prod.fst ∧
    (authorityRankedScored boost_community cands).Pairwise (fun a b => b.2 ≤ a.2) ∧
    (authorityRankedScored boost_community cands).Perm
      (cands.map (fun c => (c.1, finalScore boost_community c.1 c.2))) ∧
    (∀ q : ℚ,
      (authorityRankedScored boost_community cands).filter (fun a => decide (a.2 = q))
        = (cands.map (fun c => (c.1, finalScore boost_community c.1 c.2))).filter
            (fun a => decide (a.2 = q))) ∧
    (∃ i : Fin (authorityRankedScored true cands).length,
      (authorityRankedScored true cands).get i = (dS, finalScore true dS s)) ∧
    (∃ j : Fin (authorityRankedScored true cands).length,
      (authorityRankedScored true cands).get j = (dA, finalScore true dA s)) ∧
    (∀ (i j : Fin (authorityRankedScored true cands).length),
      (authorityRankedScored true cands).get i = (dS, finalScore true dS s) →
      (authorityRankedScored true cands).get j = (dA, finalScore true dA s) →
      i < j) := by
  have hstr : "academic" ≠ "situated" := by decide
  have hlt : finalScore true dA s < finalScore true dS s := by
    simp only [finalScore, hSa, hAa, Option.getD_some]
    norm_num [authorityWeight, hstr]
    nlinarith [hs]
  have hperm : List.Perm (authorityRankedScored true cands)
      (cands.map (fun c => (c.1, finalScore true c.1 c.2))) :=
    sortDescBy_perm _ _
  have hmemS : (dS, finalScore true dS s) ∈ authorityRankedScored true cands := by
    refine hperm.mem_iff.mpr ?_
    exact List.mem_map.mpr ⟨(dS, s), hmS, rfl⟩
  have hmemA : (dA, finalScore true dA s) ∈ authorityRankedScored true cands := by
    refine hperm.mem_iff.mpr ?_
    exact List.mem_map.mpr ⟨(dA, s), hmA, rfl⟩
  refine ⟨rfl, sortDescBy_sorted _ _, sortDescBy_perm _ _, fun q => sortDescBy_filter _ q _,
    List.mem_iff_get.mp hmemS, List.mem_iff_get.mp hmemA, ?_⟩
  intro i j hi hj
  by_contra hij
  push_neg at hij
  rcases eq_or_lt_of_le hij with heq | hlt2
  · have hpair : (dS, finalScore true dS s) = (dA, finalScore true dA s) := by
      rw [← hi, ← hj, heq]
    have hDSA : dS = dA := congrArg Prod.fst hpair
    rw [hDSA, hAa] at hSa
    simp at hSa
  · have hsorted : (authorityRankedScored true cands).Pairwise (fun a b => b.2 ≤ a.2) :=
      sortDescBy_sorted _ _
    have hle := (List.pairwise_iff_get.mp hsorted) j i hlt2
    rw [hi, hj] at hle
    exact absurd hle (not_le.mpr hlt)

/-- C4 counterexample: at equal **negative** raw similarity the boost lowers
the situated candidate's adjusted score, so the academic candidate ranks
first even with community boosting on — the claim as stated (equal raw
similarity, no sign restriction) is false on the code. -/
theorem c4_authority_ranking_counterexample :
    retrieve_authority_ranked true 2 [(dSit, -1), (dAca, -1)] = [dAca, dSit] ∧
    dSit.authority_level = some "situated" ∧
    dAca.authority_level = some "academic" ∧
    dSit ≠ dAca := by
  have hstr : "academic" ≠ "situated" := by decide
  refine ⟨?_, rfl, rfl, by decide⟩
  norm_num [retrieve_authority_ranked, authorityRankedScored, sortDescBy, insertDesc,
    finalScore, authorityWeight, dSit, dAca, hstr]

/-- C4 witness: the amended theorem applied at a concrete candidate list. -/
theorem c4_authority_ranking_witness :
    retrieve_authority_ranked true 2 [(dAca, 1), (dSit, 1)]
      = ((authorityRankedScored true [(dAca, 1), (dSit, 1)]).take 2).map Prod.fst :=
  (c4_authority_ranking true 2 [(dAca, 1), (dSit, 1)] dSit dAca 1 (by norm_num)
    rfl rfl (by simp) (by simp)).1

/-- A list whose head is not removed by the predicate is unchanged by
`dropWhile`. -/
theorem dropWhile_eq_self_of_head (p : Char → Bool) (l : List Char)
    (h : ∀ c, l.head? = some c → p c = false) : l.dropWhile p = l := by
  cases l with
  | nil => rfl
  | cons c cs => simp [List.dropWhile_cons, h c rfl]

/-- The head surviving `dropWhile` fails the predicate. -/
theorem head?_dropWhile_false (p : Char → Bool) :
    ∀ l : List Char, ∀ c, (l.dropWhile p).head? = some c → p c = false := by
  intro l
  induction l with
  | nil => intro c hc; simp at hc
  | cons a as ih =>
    intro c hc
    rw [List.dropWhile_cons] at hc
    by_cases hpa : p a = true
    · rw [if_pos hpa] at hc
      exact ih c hc
    · rw [if_neg hpa] at hc
      simp at hc
      subst hc
      simpa using hpa

/-- A character list with non-whitespace ends is unchanged by `stripL`. -/
theorem stripL_eq_self {l : List Char}
    (h1 : ∀ c, l.head? = some c → isPySpace c = false)
    (h2 : ∀ c, l.getLast? = some c → isPySpace c = false) : stripL l = l := by
  have hrev : ∀ c, l.reverse.head? = some c → isPySpace c = false := by
    intro c hc
    rw [List.head?_reverse] at hc
    exact h2 c hc
  unfold stripL
  rw [dropWhile_eq_self_of_head _ _ h1, dropWhile_eq_self_of_head _ _ hrev,
    List.reverse_reverse]

/-- `str.strip()` fixes a trimmed non-empty string. -/
theorem pyStrip_eq_self {s : String} (h : TrimmedNE s) : pyStrip s = s := by
  obtain ⟨_, h1, h2⟩ := h
  unfold pyStrip
  rw [stripL_eq_self h1 h2]

/-- A trimmed non-empty string is not the empty string. -/
theorem trimmedNE_ne_empty {s : String} (h : TrimmedNE s) : s ≠ "" := by
  intro he
  rw [he] at h
  exact h.1 rfl

/-- A non-empty `str.strip()` result is trimmed non-empty. -/
theorem trimmedNE_pyStrip (s : String) (h : pyStrip s ≠ "") : TrimmedNE (pyStrip s) := by
  have hdata : (pyStrip s).data
      = ((s.data.dropWhile isPySpace).reverse.dropWhile isPySpace).reverse := rfl
  have hdne : (pyStrip s).data ≠ [] := by
    intro hd
    exact h (String.ext hd)
  have hl3ne : (s.data.dropWhile isPySpace).reverse.dropWhile isPySpace ≠ [] := by
    intro h3
    apply hdne
    rw [hdata, h3]
    rfl
  refine ⟨hdne, ?_, ?_⟩
  · intro c hc
    rw [hdata, List.head?_reverse] at hc
    obtain ⟨t, ht⟩ : (s.data.dropWhile isPySpace).reverse.dropWhile isPySpace
        <:+ (s.data.dropWhile isPySpace).reverse := List.dropWhile_suffix _
    have hlast : ((s.data.dropWhile isPySpace).reverse.dropWhile isPySpace).getLast?
        = (s.data.dropWhile isPySpace).reverse.getLast? := by
      conv_rhs => rw [← ht]
      exact (List.getLast?_append_of_ne_nil _ hl3ne).symm
    rw [hlast, List.getLast?_reverse] at hc
    exact head?_dropWhile_false _ _ c hc
  · intro c hc
    rw [hdata, List.getLast?_reverse] at hc
    exact head?_dropWhile_false _ _ c hc

/-- `joinSep` of a one-element list. -/
theorem joinSep_singleton (x : String) : joinSep [x] = x := rfl

/-- `joinSep` of a list with at least two elements. -/
theorem joinSep_cons_cons (x y : String) (ys : List String) :
    joinSep (x :: y :: ys) = x ++ "\n\n" ++ joinSep (y :: ys) := rfl

/-- `joinSep` over an appended nonempty block. -/
theorem joinSep_append : ∀ (a b : List String), a ≠ [] → b ≠ [] →
    joinSep (a ++ b) = joinSep a ++ "\n\n" ++ joinSep b := by
  intro a
  induction a with
  | nil => intro b h _; exact absurd rfl h
  | cons x xs ih =>
    intro b _ hb
    cases xs with
    | nil =>
      cases b with
      | nil => exact absurd rfl hb
      | cons y ys => rfl
    | cons x2 xs2 =>
      show joinSep (x :: x2 :: (xs2 ++ b)) = joinSep (x :: x2 :: xs2) ++ "\n\n" ++ joinSep b
      rw [joinSep_cons_cons x x2 (xs2 ++ b), joinSep_cons_cons x x2 xs2]
      have hih := ih b (by simp) hb
      rw [List.cons_append] at hih
      rw [hih]
      simp [String.append_assoc]

/-- Appending one more paragraph to a chunk is `joinSep` on the extended
group. -/
theorem joinSep_append_singleton (g : List String) (x : String) (hg : g ≠ []) :
    joinSep (g ++ [x]) = joinSep g ++ "\n\n" ++ x :=
  joinSep_append g [x] hg (by simp)

/-- `joinSep` of a nonempty list of trimmed non-empty strings is trimmed
non-empty (so `.strip()` leaves assembled chunks unchanged). -/
theorem trimmedNE_joinSep : ∀ (g : List String), g ≠ [] → (∀ p ∈ g, TrimmedNE p) →
    TrimmedNE (joinSep g) := by
  intro g
  induction g with
  | nil => intro h _; exact absurd rfl h
  | cons x xs ih =>
    intro _ htr
    cases xs with
    | nil => exact htr x (by simp)
    | cons y ys =>
      have hx : TrimmedNE x := htr x (by simp)
      have hrest : TrimmedNE (joinSep (y :: ys)) := by
        refine ih (by simp) ?_
        intro p hp
        exact htr p (List.mem_cons_of_mem x hp)
      have hdata : (joinSep (x :: y :: ys)).data
          = x.data ++ ("\n\n".data ++ (joinSep (y :: ys)).data) := by
        show (x ++ "\n\n" ++ joinSep (y :: ys)).data = _
        rw [String.data_append, String.data_append, List.append_assoc]
      refine ⟨?_, ?_, ?_⟩
      · rw [hdata]
        simp [hx.1]
      · intro c hc
        rw [hdata] at hc
        obtain ⟨d, cs, hcons⟩ := List.exists_cons_of_ne_nil hx.1
        rw [hcons] at hc
        simp at hc
        exact hx.2.1 c (by rw [hcons, hc]; rfl)
      · intro c hc
        rw [hdata, List.getLast?_append_of_ne_nil _ (by simp [hrest.1])] at hc
        rw [List.getLast?_append_of_ne_nil _ hrest.1] at hc
        exact hrest.2.2 c hc

/-- The accumulation loop of `semantic_split`, specified: starting from a
chunk that is `joinSep` of a nonempty group of trimmed paragraphs, it emits a
partition of that group followed by the remaining stripped non-empty
paragraphs, in order, as `joinSep`-joined groups. -/
theorem semanticSplitLoop_spec (n : Nat) :
    ∀ (paras g : List String) (acc : List String),
      g ≠ [] → (∀ p ∈ g, TrimmedNE p) →
      ∃ groups : List (List String),
        (∀ h ∈ groups, h ≠ []) ∧
        (∀ h ∈ groups, ∀ p ∈ h, TrimmedNE p) ∧
        groups.flatten = g ++ cleanParasL paras ∧
        semanticSplitLoop n paras (joinSep g) acc = acc ++ groups.map joinSep := by
  intro paras
  induction paras with
  | nil =>
    intro g acc hg htr
    have hj := trimmedNE_joinSep g hg htr
    refine ⟨[g], by simpa using hg, by simpa using htr, by simp [cleanParasL], ?_⟩
    simp only [semanticSplitLoop]
    rw [if_neg (trimmedNE_ne_empty hj), pyStrip_eq_self hj]
    rfl
  | cons para rest ih =>
    intro g acc hg htr
    have hj := trimmedNE_joinSep g hg htr
    simp only [semanticSplitLoop]
    by_cases hp : pyStrip para = ""
    · rw [if_pos hp]
      obtain ⟨groups, h1, h2, h3, h4⟩ := ih g acc hg htr
      refine ⟨groups, h1, h2, ?_, h4⟩
      rw [h3]
      have : cleanParasL (para :: rest) = cleanParasL rest := by
        simp [cleanParasL, hp]
      rw [this]
    · have htrp : TrimmedNE (pyStrip para) := trimmedNE_pyStrip para hp
      have hclean : cleanParasL (para :: rest) = pyStrip para :: cleanParasL rest := by
        simp [cleanParasL, hp]
      rw [if_neg hp]
      by_cases hsz : n < (joinSep g).length + (pyStrip para).length
      · rw [if_pos ⟨hsz, trimmedNE_ne_empty hj⟩, pyStrip_eq_self hj]
        obtain ⟨groups, h1, h2, h3, h4⟩ :=
          ih [pyStrip para] (acc ++ [joinSep g]) (by simp) (by simpa using htrp)
        rw [joinSep_singleton] at h4
        refine ⟨g :: groups, ?_, ?_, ?_, ?_⟩
        · intro h hh
          rcases List.mem_cons.mp hh with rfl | hh
          · exact hg
          · exact h1 h hh
        · intro h hh
          rcases List.mem_cons.mp hh with rfl | hh
          · exact htr
          · exact h2 h hh
        · rw [List.flatten_cons, h3, hclean]
          simp
        · rw [h4, List.map_cons, List.append_assoc]
          rfl
      · rw [if_neg (fun hand => hsz hand.1), if_pos (trimmedNE_ne_empty hj)]
        have hmerge : joinSep g ++ "\n\n" ++ pyStrip para = joinSep (g ++ [pyStrip para]) :=
          (joinSep_append_singleton g _ hg).symm
        rw [hmerge]
        have htr2 : ∀ p ∈ g ++ [pyStrip para], TrimmedNE p := by
          intro p hp2
          rcases List.mem_append.mp hp2 with hp2 | hp2
          · exact htr p hp2
          · rw [List.mem_singleton.mp hp2]
            exact htrp
        obtain ⟨groups, h1, h2, h3, h4⟩ := ih (g ++ [pyStrip para]) acc (by simp) htr2
        refine ⟨groups, h1, h2, ?_, h4⟩
        rw [h3, hclean, List.append_assoc]
        rfl

/-- The loop started on an empty current chunk partitions the stripped
non-empty paragraphs. -/
theorem semanticSplitLoop_start (n : Nat) :
    ∀ paras : List String, cleanParasL paras ≠ [] →
      ∃ groups : List (List String),
        (∀ h ∈ groups, h ≠ []) ∧
        groups.flatten = cleanParasL paras ∧
        semanticSplitLoop n paras "" [] = groups.map joinSep := by
  intro paras
  induction paras with
  | nil => intro h; exact absurd rfl h
  | cons para rest ih =>
    intro hne
    simp only [semanticSplitLoop]
    by_cases hp : pyStrip para = ""
    · rw [if_pos hp]
      have hcl : cleanParasL (para :: rest) = cleanParasL rest := by
        simp [cleanParasL, hp]
      obtain ⟨groups, h1, h3, h4⟩ := ih (by rw [hcl] at hne; exact hne)
      exact ⟨groups, h1, by rw [hcl]; exact h3, h4⟩
    · have htrp : TrimmedNE (pyStrip para) := trimmedNE_pyStrip para hp
      rw [if_neg hp, if_neg (fun hand => hand.2 rfl), if_neg (by simp)]
      obtain ⟨groups, h1, _h2, h3, h4⟩ :=
        semanticSplitLoop_spec n rest [pyStrip para] [] (by simp) (by simpa using htrp)
      rw [joinSep_singleton] at h4
      refine ⟨groups, h1, ?_, by rw [h4]; rfl⟩
      rw [h3]
      simp [cleanParasL, hp]

/-- Joining the per-group joins equals joining the flattened paragraphs. -/
theorem joinSep_map_join : ∀ groups : List (List String), (∀ h ∈ groups, h ≠ []) →
    joinSep (groups.map joinSep) = joinSep groups.flatten := by
  intro groups
  induction groups with
  | nil => intro _; rfl
  | cons g gs ih =>
    intro hne
    cases gs with
    | nil => simp [joinSep_singleton]
    | cons g2 gs2 =>
      have hg : g ≠ [] := hne g (by simp)
      have hjoin_ne : (g2 :: gs2).flatten ≠ [] := by
        have : g2 ≠ [] := hne g2 (by simp)
        simp [List.flatten_cons]
        intro hg2
        exact absurd hg2 this
      have hmapstep : joinSep ((g :: g2 :: gs2).map joinSep)
          = joinSep g ++ "\n\n" ++ joinSep ((g2 :: gs2).map joinSep) := by
        rfl
      rw [hmapstep, ih (fun h hh => hne h (List.mem_cons_of_mem g hh))]
      rw [show (g :: g2 :: gs2).flatten = g ++ (g2 :: gs2).flatten from List.flatten_cons]
      rw [joinSep_append g (g2 :: gs2).flatten hg hjoin_ne]

/-- C10: on any text with at least one non-whitespace paragraph,
`semantic_split` partitions the stripped non-empty paragraphs — each appears
in exactly one chunk, in order, with no duplication across chunks — so
joining the chunks with a blank line reproduces the blank-line join of the
stripped non-empty paragraphs. -/
theorem c10_semantic_split_partition (chunk_size : Nat) (text : String)
    (hne : cleanParas text ≠ []) :
    semantic_split chunk_size text ≠ [] ∧
    (∃ groups : List (List String),
      (∀ h ∈ groups, h ≠ []) ∧
      groups.flatten = cleanParas text ∧
      semantic_split chunk_size text = groups.map joinSep) ∧
    joinSep (semantic_split chunk_size text) = joinSep (cleanParas text) := by
  obtain ⟨groups, h1, h3, h4⟩ := semanticSplitLoop_start chunk_size (pySplitParas text) hne
  have hgne : groups ≠ [] := by
    intro h
    rw [h] at h3
    exact hne h3.symm
  have hchunks : semanticSplitLoop chunk_size (pySplitParas text) "" [] ≠ [] := by
    rw [h4]
    simpa using hgne
  have hss : semantic_split chunk_size text = groups.map joinSep := by
    unfold semantic_split
    rw [if_neg hchunks]
    exact h4
  refine ⟨by rw [hss]; simpa using hgne, ⟨groups, h1, h3, hss⟩, ?_⟩
  rw [hss, joinSep_map_join groups h1, h3]
  rfl

/-- C10 witness: the partition property on a concrete two-paragraph text. -/
theorem c10_semantic_split_partition_witness :
    joinSep (Chunker.semantic_split 5 "Halo dunia\n\n  \n\nKisah kedua di sini")
      = joinSep (Chunker.cleanParas "Halo dunia\n\n  \n\nKisah kedua di sini") :=
  (c10_semantic_split_partition 5 "Halo dunia\n\n  \n\nKisah kedua di sini" (by decide)).2.2

section JsonLemmas

open Meta

/-- Hex digits decode their own encoding. -/
theorem decodeHexDigit_hexDig (d : Nat) (hd : d < 16) :
    decodeHexDigit (hexDig d) = some d := by
  interval_cases d <;> decide

/-- Four hex digits decode to the encoded value. -/
theorem fromHex4_toHex4 (n : Nat) (hn : n < 0x10000) :
    fromHex4 (hexDig (n / 4096 % 16)) (hexDig (n / 256 % 16)) (hexDig (n / 16 % 16))
        (hexDig (n % 16)) = some n := by
  unfold fromHex4
  rw [decodeHexDigit_hexDig (n / 4096 % 16) (by omega),
    decodeHexDigit_hexDig (n / 256 % 16) (by omega),
    decodeHexDigit_hexDig (n / 16 % 16) (by omega),
    decodeHexDigit_hexDig (n % 16) (by omega)]
  show some (n / 4096 % 16 * 4096 + n / 256 % 16 * 256 + n / 16 % 16 * 16 + n % 16) = some n
  congr 1
  omega

/-- String scanning consumes one literal (unescaped) character. -/
theorem parseStringBody_lit (fuel : Nat) (c : Char) (h1 : ¬c = '"') (h2 : ¬c = '\\')
    (h3 : ¬c.toNat < 0x20) (s : List Char) :
    parseStringBody (fuel + 1) (c :: s)
      = (parseStringBody fuel s).map (fun p => (c :: p.1, p.2)) := by
  cases s with
  | nil =>
    rw [parseStringBody]
    rw [if_neg h1, if_neg h2, if_neg h3]
  | cons d ds =>
    rw [parseStringBody]
    rw [if_neg h1, if_neg h2, if_neg h3]

/-- String scanning consumes one short escape. -/
theorem parseStringBody_esc (fuel : Nat) (e c2 : Char) (he : ¬e = 'u')
    (hse : simpleEsc e = some c2) (s : List Char) :
    parseStringBody (fuel + 1) ('\\' :: e :: s)
      = (parseStringBody fuel s).map (fun p => (c2 :: p.1, p.2)) := by
  rw [parseStringBody]
  rw [if_neg (by decide), if_pos rfl, if_neg he, hse]

/-- Dispatch of a `\u` escape through `parseUEsc`. -/
theorem parseStringBody_uesc (fuel : Nat) (r : List Char) (c2 : Char) (rest3 : List Char)
    (h : parseUEsc r = some (c2, rest3)) :
    parseStringBody (fuel + 1) ('\\' :: 'u' :: r)
      = (parseStringBody fuel rest3).map (fun p => (c2 :: p.1, p.2)) := by
  rw [parseStringBody]
  rw [if_neg (by decide), if_pos rfl, if_pos rfl, h]

/-- A non-surrogate `\uXXXX` escape decodes to its code point. -/
theorem parseUEsc_toHex4 (n : Nat) (hn : n < 0x10000)
    (hns : ¬(0xd800 ≤ n ∧ n ≤ 0xdfff)) (s : List Char) :
    parseUEsc (toHex4 n ++ s) = some (Char.ofNat n, s) := by
  rw [toHex4]
  simp only [List.cons_append, List.nil_append]
  rw [parseUEsc]
  rw [fromHex4_toHex4 n hn]
  dsimp only
  rw [if_neg (by omega), if_neg (by omega)]

/-- An escaped low surrogate in DC00-DFFF decodes to its value. -/
theorem parseLowSurrogate_toHex4 (m : Nat) (hm1 : 0xdc00 ≤ m) (hm2 : m ≤ 0xdfff)
    (s : List Char) :
    parseLowSurrogate ('\\' :: 'u' :: (toHex4 m ++ s)) = some (m, s) := by
  rw [toHex4]
  simp only [List.cons_append, List.nil_append]
  rw [parseLowSurrogate]
  rw [if_pos (show ('\\' : Char) = '\\' ∧ ('u' : Char) = 'u' from ⟨rfl, rfl⟩)]
  rw [fromHex4_toHex4 m (by omega)]
  dsimp only
  rw [if_pos ⟨hm1, hm2⟩]

/-- A surrogate pair of `\u` escapes decodes to the recombined code point. -/
theorem parseUEsc_pair (n : Nat) (h1 : 0x10000 ≤ n) (h2 : n < 0x110000) (s : List Char) :
    parseUEsc (toHex4 (0xd800 + (n - 0x10000) / 0x400)
        ++ ('\\' :: 'u' :: (toHex4 (0xdc00 + (n - 0x10000) % 0x400) ++ s)))
      = some (Char.ofNat n, s) := by
  have hhi : 0xd800 + (n - 0x10000) / 0x400 < 0x10000 := by omega
  rw [toHex4]
  simp only [List.cons_append, List.nil_append]
  rw [parseUEsc]
  rw [fromHex4_toHex4 _ hhi]
  dsimp only
  rw [if_pos (by omega)]
  rw [parseLowSurrogate_toHex4 _ (by omega) (by omega)]
  have hcp : 0x10000 + (0xd800 + (n - 0x10000) / 0x400 - 0xd800) * 0x400
      + (0xdc00 + (n - 0x10000) % 0x400 - 0xdc00) = n := by omega
  dsimp only
  rw [hcp]

set_option maxHeartbeats 1000000 in
/-- Escaping a character always yields at least one character. -/
theorem escChar_length_pos (c : Char) : 1 ≤ (escChar c).length := by
  unfold escChar
  split_ifs <;>
    simp only [toHex4, List.length_cons, List.length_append, List.length_nil] <;> omega

/-- The escaped body is at least as long as the source text. -/
theorem dumpBody_length_ge : ∀ cs : List Char, cs.length ≤ (dumpBody cs).length := by
  intro cs
  induction cs with
  | nil => simp [dumpBody]
  | cons c cs ih =>
    have h1 := escChar_length_pos c
    have : dumpBody (c :: cs) = escChar c ++ dumpBody cs := by
      simp [dumpBody]
    rw [this]
    simp only [List.length_append, List.length_cons]
    omega

/-- `skipWs` leaves a non-whitespace head alone. -/
theorem skipWs_cons_neg (c : Char) (l : List Char) (h : isJsonWs c = false) :
    skipWs (c :: l) = c :: l := by
  simp [skipWs, List.dropWhile_cons, h]

/-- `skipWs` drops a whitespace head. -/
theorem skipWs_cons_pos (c : Char) (l : List Char) (h : isJsonWs c = true) :
    skipWs (c :: l) = skipWs l := by
  simp [skipWs, List.dropWhile_cons, h]

/-- Scanning the escaped body of a string recovers exactly the source text
and stops at the closing quote.  The fuel bound holds because every escape
produces at least one scanned character. -/
theorem parseStringBody_dumpBody :
    ∀ (cs : List Char) (fuel : Nat) (rest : List Char), cs.length + 1 ≤ fuel →
      parseStringBody fuel (dumpBody cs ++ '"' :: rest) = some (cs, rest) := by
  intro cs
  induction cs with
  | nil =>
    intro fuel rest hfuel
    obtain ⟨f, rfl⟩ : ∃ f, fuel = f + 1 := ⟨fuel - 1, by omega⟩
    show parseStringBody (f + 1) ('"' :: rest) = some ([], rest)
    cases rest with
    | nil => rw [parseStringBody, if_pos rfl]
    | cons d ds => rw [parseStringBody, if_pos rfl]
  | cons c cs ih =>
    intro fuel rest hfuel
    obtain ⟨f, rfl⟩ : ∃ f, fuel = f + 1 := ⟨fuel - 1, by omega⟩
    have hf : cs.length + 1 ≤ f := by
      simp only [List.length_cons] at hfuel
      omega
    have hstep : dumpBody (c :: cs) ++ '"' :: rest
        = escChar c ++ (dumpBody cs ++ '"' :: rest) := by
      simp [dumpBody]
    rw [hstep]
    have hvalid := c.valid
    by_cases h1 : c = '"'
    · have hesc : escChar c = ['\\', '"'] := by
        unfold escChar
        rw [if_pos h1]
      rw [hesc]
      simp only [List.cons_append, List.nil_append]
      subst h1
      rw [parseStringBody_esc f '"' '"' (by decide) rfl, ih f rest hf]
      rfl
    ·
      by_cases h2 : c = '\\'
      · have hesc : escChar c = ['\\', '\\'] := by
          unfold escChar
          rw [if_neg h1, if_pos h2]
        rw [hesc]
        simp only [List.cons_append, List.nil_append]
        subst h2
        rw [parseStringBody_esc f '\\' '\\' (by decide) rfl, ih f rest hf]
        rfl
      ·
        by_cases h3 : c = '\x08'
        · have hesc : escChar c = ['\\', 'b'] := by
            unfold escChar
            rw [if_neg h1, if_neg h2, if_pos h3]
          rw [hesc]
          simp only [List.cons_append, List.nil_append]
          subst h3
          rw [parseStringBody_esc f 'b' '\x08' (by decide) rfl, ih f rest hf]
          rfl
        ·
          by_cases h4 : c = '\x0c'
          · have hesc : escChar c = ['\\', 'f'] := by
              unfold escChar
              rw [if_neg h1, if_neg h2, if_neg h3, if_pos h4]
            rw [hesc]
            simp only [List.cons_append, List.nil_append]
            subst h4
            rw [parseStringBody_esc f 'f' '\x0c' (by decide) rfl, ih f rest hf]
            rfl
          ·
            by_cases h5 : c = '\n'
            · have hesc : escChar c = ['\\', 'n'] := by
                unfold escChar
                rw [if_neg h1, if_neg h2, if_neg h3, if_neg h4, if_pos h5]
              rw [hesc]
              simp only [List.cons_append, List.nil_append]
              subst h5
              rw [parseStringBody_esc f 'n' '\n' (by decide) rfl, ih f rest hf]
              rfl
            ·
              by_cases h6 : c = '\r'
              · have hesc : escChar c = ['\\', 'r'] := by
                  unfold escChar
                  rw [if_neg h1, if_neg h2, if_neg h3, if_neg h4, if_neg h5, if_pos h6]
                rw [hesc]
                simp only [List.cons_append, List.nil_append]
                subst h6
                rw [parseStringBody_esc f 'r' '\r' (by decide) rfl, ih f rest hf]
                rfl
              ·
                by_cases h7 : c = '\t'
                · have hesc : escChar c = ['\\', 't'] := by
                    unfold escChar
                    rw [if_neg h1, if_neg h2, if_neg h3, if_neg h4, if_neg h5, if_neg h6, if_pos h7]
                  rw [hesc]
                  simp only [List.cons_append, List.nil_append]
                  subst h7
                  rw [parseStringBody_esc f 't' '\t' (by decide) rfl, ih f rest hf]
                  rfl
                ·
                  by_cases h8 : c.toNat < 0x20
                  · have hesc : escChar c = '\\' :: 'u' :: toHex4 c.toNat := by
                      unfold escChar
                      rw [if_neg h1, if_neg h2, if_neg h3, if_neg h4, if_neg h5, if_neg h6, if_neg h7, if_pos h8]
                    rw [hesc]
                    simp only [List.cons_append, List.append_assoc]
                    rw [parseStringBody_uesc f _ _ _
                      (parseUEsc_toHex4 c.toNat (by omega) (by omega) (dumpBody cs ++ '"' :: rest))]
                    rw [ih f rest hf, Char.ofNat_toNat]
                    rfl
                  ·
                    by_cases h9 : c.toNat < 0x7f
                    · have hesc : escChar c = [c] := by
                        unfold escChar
                        rw [if_neg h1, if_neg h2, if_neg h3, if_neg h4, if_neg h5, if_neg h6, if_neg h7, if_neg h8, if_pos h9]
                      rw [hesc]
                      simp only [List.cons_append, List.nil_append]
                      rw [parseStringBody_lit f c h1 h2 h8, ih f rest hf]
                      rfl
                    ·
                      by_cases h10 : c.toNat < 0x10000
                      · have hesc : escChar c = '\\' :: 'u' :: toHex4 c.toNat := by
                          unfold escChar
                          rw [if_neg h1, if_neg h2, if_neg h3, if_neg h4, if_neg h5, if_neg h6, if_neg h7, if_neg h8, if_neg h9, if_pos h10]
                        have hns : ¬(0xd800 ≤ c.toNat ∧ c.toNat ≤ 0xdfff) := by
                          rcases hvalid with hv | hv
                          · have hlt : c.toNat < 0xd800 := hv
                            omega
                          · have hgt : 0xdfff < c.toNat := hv.1
                            omega
                        rw [hesc]
                        simp only [List.cons_append, List.append_assoc]
                        rw [parseStringBody_uesc f _ _ _
                          (parseUEsc_toHex4 c.toNat h10 hns (dumpBody cs ++ '"' :: rest))]
                        rw [ih f rest hf, Char.ofNat_toNat]
                        rfl
                      · have hesc : escChar c = ('\\' :: 'u' :: toHex4 (0xd800 + (c.toNat - 0x10000) / 0x400))
                            ++ ('\\' :: 'u' :: toHex4 (0xdc00 + (c.toNat - 0x10000) % 0x400)) := by
                          unfold escChar
                          rw [if_neg h1, if_neg h2, if_neg h3, if_neg h4, if_neg h5, if_neg h6, if_neg h7, if_neg h8, if_neg h9, if_neg h10]
                        have hub : c.toNat < 0x110000 := by
                          rcases hvalid with hv | hv
                          · have hlt : c.toNat < 0xd800 := hv
                            omega
                          · exact hv.2
                        rw [hesc]
                        simp only [List.cons_append, List.append_assoc, List.nil_append]
                        rw [parseStringBody_uesc f _ _ _
                          (parseUEsc_pair c.toNat (by omega) hub (dumpBody cs ++ '"' :: rest))]
                        rw [ih f rest hf, Char.ofNat_toNat]
                        rfl

/-- Strings closed over by `dumpStrChars`. -/
theorem dumpStrChars_def (x : String) :
    dumpChars (PyVal.str x) = '"' :: (dumpBody x.data ++ ['"']) := by
  rw [dumpChars]

/-- Scanning a dumped string literal (after whitespace) yields the string. -/
theorem parseValue_dumpStr (fuel : Nat) (x : String) (s tail : List Char)
    (h : skipWs s = '"' :: (dumpBody x.data ++ '"' :: tail)) :
    parseValue fuel s = some (PyVal.str x, tail) := by
  rw [parseValue, h]
  dsimp only
  rw [if_pos rfl]
  have hlen : x.data.length + 1 ≤ (dumpBody x.data ++ '"' :: tail).length + 1 := by
    have := dumpBody_length_ge x.data
    simp only [List.length_append, List.length_cons]
    omega
  rw [parseStringBody_dumpBody x.data _ tail hlen]
  rfl

/-- A dumped element list of strings starts with a quote, so it absorbs no
whitespace. -/
theorem skipWs_dumpElems (x : String) (xs : List String) (r : List Char) :
    skipWs (dumpElemsChars ((x :: xs).map PyVal.str) ++ r)
      = dumpElemsChars ((x :: xs).map PyVal.str) ++ r := by
  cases xs with
  | nil =>
    show skipWs (('"' :: (dumpBody x.data ++ ['"'])) ++ r) = _
    rw [List.cons_append]
    exact skipWs_cons_neg _ _ (by decide)
  | cons y ys =>
    show skipWs ((('"' :: (dumpBody x.data ++ ['"'])) ++ ',' :: ' ' :: _) ++ r) = _
    rw [List.cons_append, List.cons_append]
    exact skipWs_cons_neg _ _ (by decide)

/-- Each dumped string element occupies at least one character. -/
theorem dumpElemsChars_len : ∀ ts : List String,
    ts.length ≤ (dumpElemsChars (ts.map PyVal.str)).length := by
  intro ts
  induction ts with
  | nil => simp [dumpElemsChars]
  | cons x xs ih =>
    cases xs with
    | nil =>
      show 1 ≤ (dumpChars (PyVal.str x)).length
      rw [dumpChars]
      simp
    | cons y ys =>
      show (y :: ys).length + 1 ≤ (dumpChars (PyVal.str x) ++ ',' :: ' ' ::
          dumpElemsChars ((y :: ys).map PyVal.str)).length
      rw [dumpChars]
      simp only [List.length_append, List.length_cons]
      simp only [List.length_cons] at ih ⊢
      omega

/-- Scanning a dumped, comma-separated run of string elements up to the
closing bracket yields exactly those strings. -/
theorem parseElems_strs : ∀ (xs : List String) (x : String) (f : Nat) (s tail : List Char),
    xs.length + 1 ≤ f →
    skipWs s = dumpElemsChars ((x :: xs).map PyVal.str) ++ ']' :: tail →
    parseElems f s = some ((x :: xs).map PyVal.str, tail) := by
  intro xs
  induction xs with
  | nil =>
    intro x f s tail hfuel h
    obtain ⟨f2, rfl⟩ : ∃ f2, f = f2 + 1 := ⟨f - 1, by omega⟩
    have hx : skipWs s = '"' :: (dumpBody x.data ++ '"' :: ']' :: tail) := by
      rw [h]
      show ('"' :: (dumpBody x.data ++ ['"'])) ++ ']' :: tail = _
      simp [List.append_assoc]
    rw [parseElems, parseValue_dumpStr f2 x s (']' :: tail) hx]
    dsimp only
    rw [skipWs_cons_neg _ _ (by decide)]
    dsimp only
    rw [if_neg (by decide), if_pos rfl]
    rfl
  | cons y ys ih =>
    intro x f s tail hfuel h
    obtain ⟨f2, rfl⟩ : ∃ f2, f = f2 + 1 := ⟨f - 1, by omega⟩
    have hx : skipWs s = '"' :: (dumpBody x.data ++ '"' :: ',' :: ' ' ::
        (dumpElemsChars ((y :: ys).map PyVal.str) ++ ']' :: tail)) := by
      rw [h]
      show (('"' :: (dumpBody x.data ++ ['"'])) ++ ',' :: ' ' ::
          dumpElemsChars ((y :: ys).map PyVal.str)) ++ ']' :: tail = _
      simp [List.append_assoc]
    rw [parseElems, parseValue_dumpStr f2 x s
      (',' :: ' ' :: (dumpElemsChars ((y :: ys).map PyVal.str) ++ ']' :: tail)) hx]
    dsimp only
    rw [skipWs_cons_neg _ _ (by decide)]
    dsimp only
    rw [if_pos rfl]
    have hrec : parseElems f2 (' ' :: (dumpElemsChars ((y :: ys).map PyVal.str) ++ ']' :: tail))
        = some ((y :: ys).map PyVal.str, tail) := by
      refine ih y f2 _ tail (by simp only [List.length_cons] at hfuel ⊢; omega) ?_
      rw [skipWs_cons_pos _ _ (by decide), skipWs_dumpElems]
    rw [hrec]
    rfl

/-- A dumped, non-empty element list of strings starts with a quote. -/
theorem dumpElems_strs_head (x : String) (xs : List String) :
    ∃ t, dumpElemsChars ((x :: xs).map PyVal.str) = '"' :: t := by
  cases xs with
  | nil => exact ⟨_, rfl⟩
  | cons y ys => exact ⟨_, rfl⟩

/-- Scanning a dumped list of strings yields the list back. -/
theorem parseValue_dumpList (ts : List String) (f : Nat) (s tail : List Char)
    (hfuel : ts.length + 2 ≤ f)
    (h : skipWs s = dumpChars (PyVal.list (ts.map PyVal.str)) ++ tail) :
    parseValue f s = some (PyVal.list (ts.map PyVal.str), tail) := by
  obtain ⟨f2, rfl⟩ : ∃ f2, f = f2 + 1 := ⟨f - 1, by omega⟩
  have h2 : skipWs s = '[' :: (dumpElemsChars (ts.map PyVal.str) ++ ']' :: tail) := by
    rw [h, dumpChars]
    simp [List.append_assoc]
  rw [parseValue, h2]
  dsimp only
  rw [if_neg (by decide), if_pos rfl]
  cases ts with
  | nil =>
    show (match skipWs (']' :: tail) with
          | ']' :: rest2 => some (PyVal.list [], rest2)
          | r => (parseElems f2 r).map fun p => (PyVal.list p.1, p.2))
        = some (PyVal.list [], tail)
    rw [skipWs_cons_neg _ _ (by decide)]
    rfl
  | cons x xs =>
    rw [skipWs_dumpElems]
    split
    · rename_i rest2 heq
      obtain ⟨t, ht⟩ := dumpElems_strs_head x xs
      rw [ht, List.cons_append] at heq
      exact absurd (List.head_eq_of_cons_eq heq) (by decide)
    · rw [parseElems_strs xs x f2 _ tail (by simp only [List.length_cons] at hfuel; omega)
        (skipWs_dumpElems x xs (']' :: tail))]
      rfl

/-- Round trip: `json.loads` recovers a dumped list of strings. -/
theorem json_loads_dumps_strlist (ts : List String) :
    json_loads (jsonDumps (PyVal.list (ts.map PyVal.str))) = some (PyVal.list (ts.map PyVal.str)) := by
  rw [json_loads]
  have hs : (jsonDumps (PyVal.list (ts.map PyVal.str))).data
      = dumpChars (PyVal.list (ts.map PyVal.str)) := rfl
  rw [hs]
  have hlen : ts.length + 2 ≤ (dumpChars (PyVal.list (ts.map PyVal.str))).length + 1 := by
    rw [dumpChars]
    have := dumpElemsChars_len ts
    simp only [List.length_cons, List.length_append, List.length_nil]
    omega
  have hws : skipWs (dumpChars (PyVal.list (ts.map PyVal.str)))
      = dumpChars (PyVal.list (ts.map PyVal.str)) ++ [] := by
    rw [List.append_nil, dumpChars]
    exact skipWs_cons_neg _ _ (by decide)
  rw [parseValue_dumpList ts _ _ [] hlen hws]
  rfl

/-- `to_storage_format` acts entrywise. -/
theorem to_storage_cons (k : String) (v : PyVal) (m : List (String × PyVal)) :
    to_storage_format ((k, v) :: m)
      = (if k ∈ storageListKeys ∧ isList v then (k, PyVal.str (jsonDumps v)) else (k, v))
          :: to_storage_format m := rfl

/-- `from_storage_format` acts entrywise. -/
theorem from_storage_cons (k : String) (v : PyVal) (m : List (String × PyVal)) :
    from_storage_format ((k, v) :: m)
      = (if k ∈ storageListKeys then
           match v with
           | PyVal.str s => (k, match json_loads s with | some w => w | Option.none => PyVal.list [])
           | v => (k, v)
         else (k, v)) :: from_storage_format m := rfl

/-- Round trip of a whole record whose storage-key entries are lists of
strings. -/
theorem storage_roundtrip_entries : ∀ m : List (String × PyVal),
    (∀ kv ∈ m, kv.1 ∈ storageListKeys → ∃ ts : List String, kv.2 = PyVal.list (ts.map PyVal.str)) →
    from_storage_format (to_storage_format m) = m := by
  intro m
  induction m with
  | nil => intro h; rfl
  | cons kv m ih =>
    intro h
    obtain ⟨k', v'⟩ := kv
    have htail : ∀ kv ∈ m, kv.1 ∈ storageListKeys →
        ∃ ts : List String, kv.2 = PyVal.list (ts.map PyVal.str) :=
      fun kv hm => h kv (List.mem_cons_of_mem _ hm)
    rw [to_storage_cons]
    by_cases hk' : k' ∈ storageListKeys
    · obtain ⟨ts, hv⟩ := h (k', v') (List.mem_cons_self _ _) hk'
      dsimp only at hv
      subst hv
      rw [if_pos ⟨hk', rfl⟩, from_storage_cons, if_pos hk']
      dsimp only
      rw [json_loads_dumps_strlist ts, ih htail]
    · rw [if_neg (fun hc => hk' hc.1), from_storage_cons, if_neg hk', ih htail]

/-- A malformed serialized storage field deserializes to the empty list. -/
theorem from_storage_malformed : ∀ (m : List (String × PyVal)) (k s : String),
    k ∈ storageListKeys → m.lookup k = some (PyVal.str s) → json_loads s = Option.none →
    (from_storage_format m).lookup k = some (PyVal.list []) := by
  intro m
  induction m with
  | nil =>
    intro k s hk hl hj
    simp [List.lookup] at hl
  | cons kv m ih =>
    intro k s hk hl hj
    obtain ⟨k', v'⟩ := kv
    rw [from_storage_cons]
    cases hbeq : k == k' with
    | true =>
      have hkk : k = k' := eq_of_beq hbeq
      subst hkk
      have hv : v' = PyVal.str s := by
        simp [List.lookup, hbeq] at hl
        exact hl
      subst hv
      rw [if_pos hk]
      simp only [List.lookup, hbeq]
      rw [hj]
    | false =>
      have hltail : m.lookup k = some (PyVal.str s) := by
        simp [List.lookup, hbeq] at hl
        exact hl
      by_cases hk' : k' ∈ storageListKeys
      · rw [if_pos hk']
        cases v' <;> simp only [List.lookup, hbeq] <;> exact ih k s hk hltail hj
      · rw [if_neg hk']
        simp only [List.lookup, hbeq]
        exact ih k s hk hltail hj

/-- C9: a metadata record whose storage-key (`themes`, `related_nodes`)
values are lists of strings converts to storage format and back unchanged —
in particular those lists are preserved; and when a storage-key value is a
string that `json.loads` rejects, `from_storage_format` yields the empty
list for that field (the fallback branch; the function is total, so nothing
is raised). -/
theorem c9_storage_roundtrip :
    (∀ m : List (String × PyVal),
        (∀ kv ∈ m, kv.1 ∈ storageListKeys →
          ∃ ts : List String, kv.2 = PyVal.list (ts.map PyVal.str)) →
        from_storage_format (to_storage_format m) = m)
    ∧ (∀ (m : List (String × PyVal)) (k s : String),
        k ∈ storageListKeys → m.lookup k = some (PyVal.str s) →
        json_loads s = Option.none →
        (from_storage_format m).lookup k = some (PyVal.list [])) :=
  ⟨storage_roundtrip_entries, from_storage_malformed⟩

/-- C9 witness: a record holding themes `["budaya"]` and empty related
nodes round-trips unchanged, and a malformed `themes` string deserializes
to the empty list. -/
theorem c9_storage_roundtrip_witness :
    from_storage_format (to_storage_format
        [("themes", PyVal.list [PyVal.str "budaya"]),
         ("related_nodes", PyVal.list []),
         ("title", PyVal.str "Sejarah")])
      = [("themes", PyVal.list [PyVal.str "budaya"]),
         ("related_nodes", PyVal.list []),
         ("title", PyVal.str "Sejarah")]
    ∧ (from_storage_format [("themes", PyVal.str "not json")]).lookup "themes"
      = some (PyVal.list []) :=
  ⟨c9_storage_roundtrip.1 _ (by
      intro kv hkv hin
      simp only [List.mem_cons, List.not_mem_nil, or_false] at hkv
      rcases hkv with rfl | rfl | rfl
      · exact ⟨["budaya"], rfl⟩
      · exact ⟨[], rfl⟩
      · exact absurd hin (by decide)),
   c9_storage_roundtrip.2 _ "themes" "not json" (by decide) rfl rfl⟩

end JsonLemmas

end Theorems
